import Mathlib

/-!
Verification of the digital-twin simulation engine
(`app/services/simulation_service.py`, `app/services/communication_service.py`
and the HTTP stop endpoint `app/api/api_v1/endpoints/simulation.py`).

Modelling conventions (shallow embedding):
* Python numbers (`int`/`float`) are modelled as rationals `ℚ`; Python
  booleans (which are `int` instances) get their own constructor and are
  converted to `0`/`1` where the source performs arithmetic on them.
* Python dictionaries are modelled as association lists with
  first-match lookup and in-place update (`alGet` / `alSet`), which matches
  CPython's insertion-ordered dict semantics.
* Iteration over a Python `set` of component ids is modelled as iteration
  over the list of ids with later duplicates removed (`dedupFirst`); the
  properties proved below do not depend on the iteration order of the set.
* External effects (OPC UA network calls, the FMU shared library, the
  database session) are modelled as explicit oracle parameters.
-/

namespace DT

/-- Runtime values exchanged between components. Python numbers are
modelled as rationals, strings as `String`; Python booleans (instances of
`int` in Python) are kept separate and converted where the code treats
them numerically. -/
inductive Value where
  | num (q : ℚ)
  | str (s : String)
  | boolv (b : Bool)
deriving DecidableEq, Repr

/-- Internal connection record (`app/schemas/connection.py`): component ids
are required, port names are optional strings. -/
structure Connection where
  id : Nat
  machine_model_id : Nat
  source_component_id : Nat
  target_component_id : Nat
  source_port : Option String
  target_port : Option String
deriving DecidableEq, Repr

/-- Simplified component data stored in simulation state
(`ComponentInfo` in `simulation_service.py`). All configuration keys read
by the component kernels hold numbers, so `config` is modelled as a map
from keys to rationals. -/
structure ComponentInfo where
  id : Nat
  name : String
  type : String
  config : Option (List (String × ℚ))
deriving DecidableEq, Repr

/-- Communication binding (`app/schemas/communication_binding.py`), plus
the `endpoint_url` field of the spec's §3 data model, which
`communication_service.py` reads on every binding. -/
structure CommunicationBinding where
  id : Nat
  machine_model_id : Nat
  component_id : Nat
  component_port : String
  direction : String
  protocol : String
  address : String
  endpoint_url : String
deriving DecidableEq, Repr

/-- First-match lookup in an association list; models Python dict lookup. -/
def alGet {α β : Type} [DecidableEq α] : List (α × β) → α → Option β
  | [], _ => none
  | p :: rest, k => if p.1 = k then some p.2 else alGet rest k

/-- In-place update of an association list: replace the first entry with the
given key, or append a fresh entry; models Python dict assignment. -/
def alSet {α β : Type} [DecidableEq α] : List (α × β) → α → β → List (α × β)
  | [], k, v => [(k, v)]
  | p :: rest, k, v => if p.1 = k then (k, v) :: rest else p :: alSet rest k v

/-- Worker for `dedupFirst`: drop elements already seen, in order. -/
def dedupFirstAux {α : Type} [DecidableEq α] (seen : List α) :
    List α → List α
  | [] => []
  | x :: rest =>
    if x ∈ seen then dedupFirstAux seen rest
    else x :: dedupFirstAux (x :: seen) rest

/-- Keep the first occurrence of every element; models iterating a Python
set built from the list (the proofs below do not depend on the actual hash
iteration order of CPython sets). -/
def dedupFirst {α : Type} [DecidableEq α] (l : List α) : List α :=
  dedupFirstAux [] l

/-- In-degree lookup with the `defaultdict(int)` default of `0`. -/
def degLookup (d : List (Nat × Int)) (k : Nat) : Int :=
  (alGet d k).getD 0

/-- Decrement the in-degree of `k`, creating a `-1` entry when the key is
absent (as `defaultdict(int)` would). -/
def degDec : List (Nat × Int) → Nat → List (Nat × Int)
  | [], k => [(k, -1)]
  | p :: rest, k => if p.1 = k then (k, p.2 - 1) :: rest else p :: degDec rest k

/-- Increment the in-degree of `k`, creating a `1` entry when the key is
absent. -/
def degInc : List (Nat × Int) → Nat → List (Nat × Int)
  | [], k => [(k, 1)]
  | p :: rest, k => if p.1 = k then (k, p.2 + 1) :: rest else p :: degInc rest k

/-- Edge and in-degree accumulation for one connection
(`_get_execution_order`, `simulation_service.py` lines 272-280): the edge
`(source, target)` is added, and the target's in-degree incremented, when
both endpoints are known component ids and the edge is not already present.
Ports are not consulted here. -/
def addConnEdge (componentIds : List Nat)
    (st : List (Nat × Nat) × List (Nat × Int)) (c : Connection) :
    List (Nat × Nat) × List (Nat × Int) :=
  if c.source_component_id ∈ componentIds ∧ c.target_component_id ∈ componentIds then
    if (c.source_component_id, c.target_component_id) ∈ st.1 then st
    else (st.1 ++ [(c.source_component_id, c.target_component_id)],
          degInc st.2 c.target_component_id)
  else st

/-- Dependency graph of `_get_execution_order`: vertices are the (set of)
component ids, each with in-degree initialised to `0`; edges and in-degrees
come from folding `addConnEdge` over the connections in order. -/
def buildGraph (componentIds : List Nat) (connections : List Connection) :
    List (Nat × Nat) × List (Nat × Int) :=
  connections.foldl (addConnEdge componentIds)
    ([], componentIds.map (fun i => (i, 0)))

/-- Out-neighbour list of `u` (`adj[u]` in the source), in edge insertion
order. -/
def adjOf (edges : List (Nat × Nat)) (u : Nat) : List Nat :=
  (edges.filter (fun e => e.1 = u)).map (fun e => e.2)

/-- Sum of the positive parts of the stored in-degrees; termination measure
for Kahn's loop. -/
def degSum (d : List (Nat × Int)) : Nat :=
  (d.map (fun p => p.2.toNat)).sum

/-- Inner loop of Kahn's algorithm (`for v in adj[u]`): decrement each
out-neighbour's in-degree and enqueue it when the decremented in-degree is
zero. -/
def processNeighbors : List Nat → List Nat → List (Nat × Int) →
    List Nat × List (Nat × Int)
  | [], queue, deg => (queue, deg)
  | v :: rest, queue, deg =>
    let degNew := degDec deg v
    processNeighbors rest
      (if degLookup degNew v = 0 then queue ++ [v] else queue) degNew

/-- Main loop of Kahn's algorithm (`while queue:` in
`_get_execution_order`): pop the head of the queue, append it to the sorted
output, and process its out-neighbours. -/
def kahnLoop (edges : List (Nat × Nat)) :
    List Nat → List (Nat × Int) → List Nat → List Nat
  | [], _, sortedAcc => sortedAcc
  | u :: rest, deg, sortedAcc =>
    kahnLoop edges (processNeighbors (adjOf edges u) rest deg).1
      (processNeighbors (adjOf edges u) rest deg).2 (sortedAcc ++ [u])
termination_by queue deg _ => queue.length + degSum deg
decreasing_by
  have hdec : ∀ (d : List (Nat × Int)) (k : Nat),
      degLookup (degDec d k) k = degLookup d k - 1 := by
    intro d k
    induction d with
    | nil => simp [degDec, degLookup, alGet]
    | cons p dres ihp =>
      by_cases hpk : p.1 = k
      · subst hpk; simp [degDec, degLookup, alGet]
      · simpa [degDec, degLookup, alGet, hpk] using ihp
  have hle : ∀ (d : List (Nat × Int)) (k : Nat),
      degSum (degDec d k) ≤ degSum d := by
    intro d k
    induction d with
    | nil => simp [degDec, degSum]
    | cons p dres ihp =>
      by_cases hpk : p.1 = k
      · simp only [degDec, hpk, if_pos, degSum, List.map_cons, List.sum_cons]
        have : (p.2 - 1).toNat ≤ p.2.toNat := by omega
        exact Nat.add_le_add this le_rfl
      · simp only [degDec, hpk, if_neg, not_false_iff, degSum, List.map_cons,
          List.sum_cons]
        exact Nat.add_le_add le_rfl ihp
  have hlt : ∀ (d : List (Nat × Int)) (k : Nat), 1 ≤ degLookup d k →
      degSum (degDec d k) < degSum d := by
    intro d k
    induction d with
    | nil => intro h; simp [degLookup, alGet] at h
    | cons p dres ihp =>
      intro h
      by_cases hpk : p.1 = k
      · simp only [degLookup, alGet, hpk, if_pos, Option.getD_some] at h
        simp only [degDec, hpk, if_pos, degSum, List.map_cons, List.sum_cons]
        have : (p.2 - 1).toNat < p.2.toNat := by omega
        omega
      · simp only [degLookup, alGet, hpk, if_neg, not_false_iff] at h
        simp only [degDec, hpk, if_neg, not_false_iff, degSum, List.map_cons,
          List.sum_cons]
        exact Nat.add_lt_add_left (ihp h) _
  have hmeas : ∀ (vs queue : List Nat) (d : List (Nat × Int)),
      (processNeighbors vs queue d).1.length +
        degSum (processNeighbors vs queue d).2 ≤ queue.length + degSum d := by
    intro vs
    induction vs with
    | nil => intro queue d; simp [processNeighbors]
    | cons w vres ihp =>
      intro queue d
      simp only [processNeighbors]
      by_cases hz : degLookup (degDec d w) w = 0
      · have h1 : 1 ≤ degLookup d w := by
          have := hdec d w
          omega
        have hstep : degSum (degDec d w) < degSum d := hlt d w h1
        have := ihp (queue ++ [w]) (degDec d w)
        simp only [hz, if_pos] at *
        simp only [List.length_append, List.length_cons, List.length_nil] at *
        omega
      · have hstep : degSum (degDec d w) ≤ degSum d := hle d w
        have := ihp queue (degDec d w)
        simp only [hz, if_neg, not_false_iff] at *
        omega
  have h := hmeas (adjOf edges u) rest deg
  simp only [List.length_cons]
  omega

/-- Result of the Kahn sort before the cycle check: build the graph over
the set of component ids, seed the queue with the in-degree-zero vertices,
and run the loop. -/
def kahnSorted (components : List ComponentInfo) (connections : List Connection) :
    List Nat :=
  let componentIds := dedupFirst (components.map (fun c => c.id))
  let g := buildGraph componentIds connections
  kahnLoop g.1 (componentIds.filter (fun i => degLookup g.2 i = 0)) g.2 []

/-- The scheduler `_get_execution_order` (`simulation_service.py` lines
257-304): Kahn's topological sort; when the sort emits fewer vertices than
there are component ids (a cycle), fall back to the snapshot order of the
components. -/
def get_execution_order (components : List ComponentInfo)
    (connections : List Connection) : List Nat :=
  if (kahnSorted components connections).length ≠
      (dedupFirst (components.map (fun c => c.id))).length then
    components.map (fun c => c.id)
  else kahnSorted components connections

/-- Python truthiness of an optional connection port, as tested by
`conn.target_port and conn.source_port`: `None` and the empty string are
falsy. -/
def portPresent : Option String → Bool
  | none => false
  | some s => s != ""

/-- Numeric-input extraction shared by the kernels: models the
`isinstance(x, (int, float))` test, under which Python booleans count as
the numbers `1` / `0`. -/
def numericValue : Option Value → Option ℚ
  | some (Value.num q) => some q
  | some (Value.boolv b) => some (if b then 1 else 0)
  | _ => none

/-- Configuration lookup with a default, modelling
`(comp_info.config or ...).get(key, dflt)`. -/
def cfgNum (config : Option (List (String × ℚ))) (key : String) (dflt : ℚ) : ℚ :=
  (alGet (config.getD []) key).getD dflt

/-- One internal connection's contribution to input gathering
(`simulation_service.py` lines 362-372): when the connection targets this
component and both ports are truthy, bind the source's previous-step value
to the target port when that value is present. -/
def gatherInternalStep (prevStates : List (Nat × List (String × Value)))
    (compId : Nat) (inputs : List (String × Value)) (conn : Connection) :
    List (String × Value) :=
  match conn.target_port, conn.source_port with
  | some tp, some sp =>
    if conn.target_component_id = compId ∧ tp ≠ "" ∧ sp ≠ "" then
      match alGet ((alGet prevStates conn.source_component_id).getD []) sp with
      | some v => alSet inputs tp v
      | none => inputs
    else inputs
  | _, _ => inputs

/-- One `read` binding's contribution to input gathering
(`simulation_service.py` lines 374-386): when the binding targets a truthy
port of this component and the external cache has a value for it, overlay
that value onto the port. -/
def gatherOverlayStep (externalInputs : List (Nat × Value)) (compId : Nat)
    (inputs : List (String × Value)) (b : CommunicationBinding) :
    List (String × Value) :=
  if b.direction = "read" ∧ b.component_id = compId ∧ b.component_port ≠ "" then
    match alGet externalInputs b.id with
    | some v => alSet inputs b.component_port v
    | none => inputs
  else inputs

/-- Input gathering for one component in `_run_simulation_loop`
(`simulation_service.py` lines 358-386): fold the internal connections
first, then — in HIL mode with a non-empty binding list — the `read`
bindings, so an external value overlays an internal one for the same
port. -/
def gatherInputs (connections : List Connection)
    (bindings : List CommunicationBinding)
    (prevStates : List (Nat × List (String × Value)))
    (externalInputs : List (Nat × Value)) (hil : Bool) (compId : Nat) :
    List (String × Value) :=
  let internal := connections.foldl (gatherInternalStep prevStates compId) []
  if hil ∧ bindings ≠ [] then
    bindings.foldl (gatherOverlayStep externalInputs compId) internal
  else internal

/-- Sensor kernel: sine wave of the elapsed time. The transcendental
`sin(2·π·x)` is supplied as the oracle `sinTwoPi`, since the embedding
works over rationals. -/
def sensorStep (sinTwoPi : ℚ → ℚ) (config : Option (List (String × ℚ)))
    (currentTime : ℚ) : List (String × Value) :=
  let frequency := cfgNum config "frequency" (1 / 10)
  let amplitude := cfgNum config "amplitude" 1
  let offset := cfgNum config "offset" 0
  [("value", Value.num (offset + amplitude * sinTwoPi (frequency * currentTime)))]

/-- Heater kernel (`simulation_service.py` lines 401-444). The previous
`temperature` entry is numeric whenever present, since only this kernel
writes it; a missing entry means the first tick and yields `initial_temp`
(default `ambient_temp`). -/
def heaterStep (config : Option (List (String × ℚ)))
    (prevState : List (String × Value)) (inputs : List (String × Value)) :
    List (String × Value) :=
  let config_setpoint := cfgNum config "setpoint" 50
  let heating_rate := cfgNum config "heating_rate" 5
  let cooling_rate := cfgNum config "cooling_rate" 1
  let ambient_temp := cfgNum config "ambient_temp" 20
  let initial_temp := cfgNum config "initial_temp" ambient_temp
  let time_step : ℚ := 1
  let current_temp : ℚ :=
    match alGet prevState "temperature" with
    | some (Value.num q) => q
    | _ => initial_temp
  let target_setpoint : ℚ :=
    match numericValue (alGet inputs "setpoint") with
    | some q => q
    | none => config_setpoint
  let new_temp : ℚ :=
    if current_temp < target_setpoint then
      min (current_temp + heating_rate * time_step) target_setpoint
    else if current_temp > target_setpoint then
      max (current_temp - cooling_rate * time_step)
        (max ambient_temp
          (if target_setpoint > ambient_temp then target_setpoint else ambient_temp))
    else current_temp
  [("temperature", Value.num new_temp)]

/-- Actuator kernel (`simulation_service.py` lines 446-467): `On` when the
numeric `command` input reaches the threshold, else `Off`. -/
def actuatorStep (config : Option (List (String × ℚ)))
    (inputs : List (String × Value)) : List (String × Value) :=
  let threshold := cfgNum config "threshold" (1 / 2)
  match numericValue (alGet inputs "command") with
  | some v =>
    if v ≥ threshold then [("status", Value.str "On")]
    else [("status", Value.str "Off")]
  | none => [("status", Value.str "Off")]

/-- Valve kernel (`simulation_service.py` lines 469-490): flow `1.0` when
the numeric `ControlSignal` input strictly exceeds the threshold, else
`0.0`. -/
def valveStep (config : Option (List (String × ℚ)))
    (inputs : List (String × Value)) : List (String × Value) :=
  let threshold := cfgNum config "threshold" (1 / 2)
  match numericValue (alGet inputs "ControlSignal") with
  | some v =>
    if v > threshold then [("Flow", Value.num 1)] else [("Flow", Value.num 0)]
  | none => [("Flow", Value.num 0)]

/-- Outcome of the opaque FMU co-simulation call on one tick: the `doStep`
status code and, on success, the output variables read back. -/
structure FmuTick where
  doStepStatus : Int
  outputs : List (String × Value)

/-- FMI status code `fmi2OK`. -/
def fmi2OK : Int := 0

/-- FMU branch of the step loop (`simulation_service.py` lines 492-567):
a missing instance yields the `error_fmu_not_found` state; a non-OK
`doStep` status yields the `error_doStep_<code>` state; otherwise the
outputs read from the FMU become the state. -/
def fmuStep (fmuTick : Option FmuTick) : List (String × Value) :=
  match fmuTick with
  | none => [("status", Value.str "error_fmu_not_found")]
  | some t =>
    if t.doStepStatus ≠ fmi2OK then
      [("status", Value.str ("error_doStep_" ++ toString t.doStepStatus))]
    else t.outputs

/-- Kernel dispatch on the component's string `type`
(`simulation_service.py` lines 390-573); unknown types yield the
`unknown_type` state. -/
def componentStep (sinTwoPi : ℚ → ℚ) (fmuOracle : Nat → Option FmuTick)
    (currentTime : ℚ) (comp : ComponentInfo)
    (inputs prevState : List (String × Value)) : List (String × Value) :=
  if comp.type = "Sensor" then sensorStep sinTwoPi comp.config currentTime
  else if comp.type = "Heater" then heaterStep comp.config prevState inputs
  else if comp.type = "Actuator" then actuatorStep comp.config inputs
  else if comp.type = "Valve" then valveStep comp.config inputs
  else if comp.type = "FMU" then fmuStep (fmuOracle comp.id)
  else [("status", Value.str "unknown_type")]

/-- Mutable runtime state of one simulation (`SimulationState`), restricted
to the fields the step loop reads or writes. -/
structure SimState where
  simulation_id : Nat
  machine_model_id : Nat
  status : String
  components : List ComponentInfo
  connections : List Connection
  communication_bindings : List CommunicationBinding
  component_states : List (Nat × List (String × Value))
  execution_order : List Nat

/-- Last-wins id lookup, modelling the Python dict comprehension that
builds `component_map` from the component list. -/
def componentMap (components : List ComponentInfo) (i : Nat) :
    Option ComponentInfo :=
  components.foldl (fun acc c => if c.id = i then some c else acc) none

/-- The state one component produces during a tick: its kernel applied to
the inputs gathered for it and to its previous-step state. -/
def tickOutput (sinTwoPi : ℚ → ℚ) (fmuOracle : Nat → Option FmuTick)
    (hil : Bool) (externalInputs : List (Nat × Value)) (currentTime : ℚ)
    (sim : SimState) (compId : Nat) (comp : ComponentInfo) :
    List (String × Value) :=
  componentStep sinTwoPi fmuOracle currentTime comp
    (gatherInputs sim.connections sim.communication_bindings
      sim.component_states externalInputs hil compId)
    ((alGet sim.component_states compId).getD [])

/-- One tick of the body of `_run_simulation_loop` (`simulation_service.py`
lines 329-612): with the external cache already read into
`externalInputs`, run every component of the execution order on the
previous-step states, collect the results, and merge them into
`component_states` (dict `update` semantics); the status field is not
touched by the tick body. -/
def runTick (sinTwoPi : ℚ → ℚ) (fmuOracle : Nat → Option FmuTick)
    (hil : Bool) (externalInputs : List (Nat × Value)) (currentTime : ℚ)
    (sim : SimState) : SimState :=
  let nextStates := sim.execution_order.foldl
    (fun acc compId =>
      match componentMap sim.components compId with
      | none => acc
      | some comp =>
        alSet acc compId
          (tickOutput sinTwoPi fmuOracle hil externalInputs currentTime sim
            compId comp))
    []
  { sim with component_states :=
      nextStates.foldl (fun st p => alSet st p.1 p.2) sim.component_states }

/-- Snapshot-loading phase of `create_and_start_simulation`
(`simulation_service.py` lines 69-107), with the three database fetches as
`Except` parameters: component and connection fetch failures are re-raised;
a communication-binding fetch failure in HIL mode is logged and replaced by
the empty binding list; outside HIL mode bindings are not fetched. -/
def loadSnapshot (fetchComponents : Except String (List ComponentInfo))
    (fetchConnections : Except String (List Connection))
    (fetchBindings : Except String (List CommunicationBinding))
    (mode : String) :
    Except String (List ComponentInfo × List Connection ×
      List CommunicationBinding) := do
  let comps ← fetchComponents
  let conns ← fetchConnections
  let bindings :=
    if mode = "hil" then
      match fetchBindings with
      | Except.ok bs => bs
      | Except.error _ => []
    else []
  return (comps, conns, bindings)

/-- Registry view of `stop_simulation` (`simulation_service.py` lines
223-247) over the id-to-status map of active simulations: the Boolean
result and the updated registry. -/
def stop_simulation (registry : List (Nat × String)) (simId : Nat) :
    Bool × List (Nat × String) :=
  match alGet registry simId with
  | none => (false, registry)
  | some st =>
    if st = "running" ∨ st = "starting" then
      (true, alSet registry simId "stopping")
    else if st = "stopped" ∨ st = "error" ∨ st = "pending" ∨ st = "stopping" then
      (true, registry)
    else (false, registry)

/-- Outcome of the HTTP stop endpoint. -/
inductive StopResponse where
  | accepted
  | notFound
  | badRequest
deriving DecidableEq, Repr

/-- HTTP stop endpoint (`endpoints/simulation.py` lines 48-67): on a false
service result, 404 when the simulation is unknown, otherwise the 400
`could not be stopped` branch. -/
def stopEndpoint (registry : List (Nat × String)) (simId : Nat) :
    StopResponse × List (Nat × String) :=
  let r := stop_simulation registry simId
  if r.1 then (StopResponse.accepted, r.2)
  else
    match alGet registry simId with
    | none => (StopResponse.notFound, r.2)
    | some _ => (StopResponse.badRequest, r.2)

/-- Pure state of `CommunicationService`: the latest-value cache, the
node-id-to-binding-id reverse map, and the stored read/write binding
lists. -/
structure CommState where
  binding_values : List (Nat × Value)
  node_id_to_binding_id_map : List (String × Nat)
  read_bindings : List CommunicationBinding
  write_bindings : List CommunicationBinding

/-- Oracle for the OPC UA network effects of the connection loop: whether a
live client already exists for a URL, whether connecting and creating the
subscription succeed, whether resolving a binding's node succeeds, and the
node-id string a resolved address reports. -/
structure OpcUaNet where
  alreadyConnected : String → Bool
  connectOk : String → Bool
  subscribeOk : String → Bool
  nodeOk : CommunicationBinding → Bool
  nodeIdOf : String → String

/-- Unique endpoint URLs of the bindings with a truthy `endpoint_url` (the
set comprehension over bindings; the spec's §3 data model supplies the
`endpoint_url` field). -/
def endpointUrls (bindings : List CommunicationBinding) : List String :=
  dedupFirst (bindings.filterMap
    (fun b => if b.endpoint_url ≠ "" then some b.endpoint_url else none))

/-- Node-map effect of one endpoint's iteration of the connection loop
(`communication_service.py` lines 70-153): an already-connected endpoint is
skipped; after a successful connect and subscription, every resolvable
`read` binding of this endpoint is mapped; a subscription failure skips
monitoring for the endpoint; a connect failure rolls back the map entries
of this endpoint's read bindings. -/
def initEndpoint (net : OpcUaNet) (readBindings : List CommunicationBinding)
    (nodeMap : List (String × Nat)) (url : String) : List (String × Nat) :=
  if net.alreadyConnected url then nodeMap
  else if net.connectOk url then
    if (readBindings.filter (fun b => b.endpoint_url = url)) ≠ [] then
      if net.subscribeOk url then
        (readBindings.filter (fun b => b.endpoint_url = url)).foldl
          (fun m b =>
            if net.nodeOk b then alSet m (net.nodeIdOf b.address) b.id else m)
          nodeMap
      else nodeMap
    else nodeMap
  else
    nodeMap.filter (fun p =>
      !(readBindings.any (fun b => b.endpoint_url == url && b.id == p.2)))

/-- `CommunicationService.initialize_connections`
(`communication_service.py` lines 52-155): clear the latest-value cache and
the reverse node map, partition the given bindings into the read and write
lists, then process each unique endpoint. Every modelled field is rebuilt
from scratch, so the result does not depend on the previous state. -/
def initialize_connections (_prev : CommState) (net : OpcUaNet)
    (bindings : List CommunicationBinding) : CommState :=
  let readBindings := bindings.filter (fun b => b.direction == "read")
  { binding_values := []
    node_id_to_binding_id_map :=
      (endpointUrls bindings).foldl (initEndpoint net readBindings) []
    read_bindings := readBindings
    write_bindings := bindings.filter (fun b => b.direction == "write") }

/-- `SubHandler.datachange_notification`: write the value into the
latest-value cache under the binding id the node maps to; unmapped nodes
are dropped. -/
def datachange_notification (st : CommState) (nodeIdStr : String) (v : Value) :
    CommState :=
  match alGet st.node_id_to_binding_id_map nodeIdStr with
  | some bindingId =>
    { st with binding_values := alSet st.binding_values bindingId v }
  | none => st

/-- `read_values_from_external`: a snapshot of the latest-value cache. -/
def read_values_from_external (st : CommState) : List (Nat × Value) :=
  st.binding_values

/-- Apply a sequence of subscription callbacks. -/
def applyCallbacks (st : CommState) (events : List (String × Value)) :
    CommState :=
  events.foldl (fun s e => datachange_notification s e.1 e.2) st

/-- Acyclicity of an edge list, expressed as the existence of a topological
ranking; for a finite directed graph this holds exactly when there is no
directed cycle. -/
def EdgeAcyclic (edges : List (Nat × Nat)) : Prop :=
  ∃ f : Nat → Nat, ∀ e ∈ edges, f e.1 < f e.2

/-- Loop invariant of Kahn's algorithm over the graph with edge list
`edges` and vertex list `V`: the emitted `sorted` output and the pending
`queue` are disjoint subsets of `V`; the stored in-degree of each vertex
counts its in-edges from not-yet-emitted sources; queued vertices have all
predecessors emitted; and the emitted output respects every edge. -/
structure KInv (edges : List (Nat × Nat)) (V : List Nat)
    (queue : List Nat) (deg : List (Nat × Int)) (sorted : List Nat) : Prop where
  nodupSQ : (sorted ++ queue).Nodup
  queue_sub : ∀ v ∈ queue, v ∈ V
  sorted_sub : ∀ v ∈ sorted, v ∈ V
  deg_eq : ∀ v, degLookup deg v =
    ((edges.filter (fun e => e.2 = v ∧ e.1 ∉ sorted)).length : Int)
  queue_zero : ∀ v ∈ queue, degLookup deg v = 0
  zero_mem : ∀ v ∈ V, degLookup deg v = 0 → v ∈ sorted ∨ v ∈ queue
  topo : ∀ e ∈ edges, e.2 ∈ sorted →
    e.1 ∈ sorted ∧ sorted.indexOf e.1 < sorted.indexOf e.2

theorem degLookup_degDec (d : List (Nat × Int)) (k v : Nat) :
    degLookup (degDec d k) v = degLookup d v - (if v = k then 1 else 0) := by
  induction d with
  | nil =>
    by_cases h : v = k
    · subst h; simp [degDec, degLookup, alGet]
    · simp [degDec, degLookup, alGet, h, Ne.symm h]
  | cons p rest ih =>
    by_cases hpk : p.1 = k
    · subst hpk
      by_cases hv : v = p.1
      · subst hv; simp [degDec, degLookup, alGet]
      · simp [degDec, degLookup, alGet, hv, Ne.symm hv]
    · by_cases hpv : p.1 = v
      · have hvk : ¬ v = k := fun h => hpk (hpv.trans h)
        simp [degDec, degLookup, alGet, hpk, hpv, hvk]
      · simpa [degDec, degLookup, alGet, hpk, hpv] using ih

theorem degLookup_degInc (d : List (Nat × Int)) (k v : Nat) :
    degLookup (degInc d k) v = degLookup d v + (if v = k then 1 else 0) := by
  induction d with
  | nil =>
    by_cases h : v = k
    · subst h; simp [degInc, degLookup, alGet]
    · simp [degInc, degLookup, alGet, h, Ne.symm h]
  | cons p rest ih =>
    by_cases hpk : p.1 = k
    · subst hpk
      by_cases hv : v = p.1
      · subst hv; simp [degInc, degLookup, alGet]
      · simp [degInc, degLookup, alGet, hv, Ne.symm hv]
    · by_cases hpv : p.1 = v
      · have hvk : ¬ v = k := fun h => hpk (hpv.trans h)
        simp [degInc, degLookup, alGet, hpk, hpv, hvk]
      · simpa [degInc, degLookup, alGet, hpk, hpv] using ih

theorem degSum_degDec_le (d : List (Nat × Int)) (k : Nat) :
    degSum (degDec d k) ≤ degSum d := by
  induction d with
  | nil => simp [degDec, degSum]
  | cons p rest ih =>
    by_cases hpk : p.1 = k
    · simp only [degDec, hpk, if_pos, degSum, List.map_cons, List.sum_cons]
      have : (p.2 - 1).toNat ≤ p.2.toNat := by omega
      exact Nat.add_le_add this le_rfl
    · simp only [degDec, hpk, if_neg, not_false_iff, degSum, List.map_cons,
        List.sum_cons]
      exact Nat.add_le_add le_rfl ih

theorem degSum_degDec_lt (d : List (Nat × Int)) (k : Nat)
    (h : 1 ≤ degLookup d k) : degSum (degDec d k) < degSum d := by
  induction d with
  | nil => simp [degLookup, alGet] at h
  | cons p rest ih =>
    by_cases hpk : p.1 = k
    · simp only [degLookup, alGet, hpk, if_pos, Option.getD_some] at h
      simp only [degDec, hpk, if_pos, degSum, List.map_cons, List.sum_cons]
      have : (p.2 - 1).toNat < p.2.toNat := by omega
      exact Nat.add_lt_add_right this _ |>.trans_le (by omega)
    · simp only [degLookup, alGet, hpk, if_neg, not_false_iff] at h
      simp only [degDec, hpk, if_neg, not_false_iff, degSum, List.map_cons,
        List.sum_cons]
      exact Nat.add_lt_add_left (ih h) _

theorem processNeighbors_measure (vs : List Nat) :
    ∀ (queue : List Nat) (deg : List (Nat × Int)),
      (processNeighbors vs queue deg).1.length +
        degSum (processNeighbors vs queue deg).2 ≤ queue.length + degSum deg := by
  induction vs with
  | nil => intro queue deg; simp [processNeighbors]
  | cons v rest ih =>
    intro queue deg
    simp only [processNeighbors]
    by_cases hz : degLookup (degDec deg v) v = 0
    · have h1 : degLookup deg v = 1 := by
        have := degLookup_degDec deg v v
        simp [hz] at this ⊢
        omega
      have hlt : degSum (degDec deg v) < degSum deg :=
        degSum_degDec_lt deg v (by omega)
      have := ih (queue ++ [v]) (degDec deg v)
      simp only [hz, if_pos] at *
      simp only [List.length_append, List.length_cons, List.length_nil] at *
      omega
    · have hle : degSum (degDec deg v) ≤ degSum deg := degSum_degDec_le deg v
      have := ih queue (degDec deg v)
      simp only [hz, if_neg, not_false_iff] at *
      omega

theorem alGet_alSet_self {α β : Type} [DecidableEq α]
    (l : List (α × β)) (k : α) (v : β) : alGet (alSet l k v) k = some v := by
  induction l with
  | nil => simp [alGet, alSet]
  | cons p rest ih =>
    by_cases h : p.1 = k
    · simp [alGet, alSet, h]
    · simp [alGet, alSet, h, ih]

theorem alGet_alSet_ne {α β : Type} [DecidableEq α]
    (l : List (α × β)) (k k' : α) (v : β) (h : ¬ k = k') :
    alGet (alSet l k v) k' = alGet l k' := by
  induction l with
  | nil => simp [alGet, alSet, h]
  | cons p rest ih =>
    by_cases hpk : p.1 = k
    · subst hpk
      simp [alGet, alSet, h]
    · by_cases hpk' : p.1 = k'
      · have h' : ¬ k' = k := fun hh => h hh.symm
        simp [alGet, alSet, hpk, hpk', h']
      · simp [alGet, alSet, hpk, hpk', ih]

theorem mem_alSet {α β : Type} [DecidableEq α]
    (l : List (α × β)) (k : α) (v : β) :
    ∀ p ∈ alSet l k v, p = (k, v) ∨ p ∈ l := by
  induction l with
  | nil => simp [alSet]
  | cons q rest ih =>
    intro p hp
    by_cases hqk : q.1 = k
    · simp only [alSet, hqk, if_pos, List.mem_cons] at hp
      rcases hp with h | h
      · exact Or.inl h
      · exact Or.inr (List.mem_cons_of_mem _ h)
    · simp only [alSet, hqk, if_neg, not_false_iff, List.mem_cons] at hp
      rcases hp with h | h
      · exact Or.inr (h ▸ List.mem_cons_self _ _)
      · rcases ih p h with h' | h'
        · exact Or.inl h'
        · exact Or.inr (List.mem_cons_of_mem _ h')

theorem alGet_mem {α β : Type} [DecidableEq α]
    (l : List (α × β)) (k : α) (v : β) (h : alGet l k = some v) : (k, v) ∈ l := by
  induction l with
  | nil => simp [alGet] at h
  | cons p rest ih =>
    by_cases hpk : p.1 = k
    · simp only [alGet, hpk, if_pos, Option.some.injEq] at h
      have hp : p = (k, v) := by cases p; simp_all
      rw [← hp]
      exact List.mem_cons_self _ _
    · simp only [alGet, hpk, if_neg, not_false_iff] at h
      exact List.mem_cons_of_mem _ (ih h)

theorem mem_dedupFirstAux {α : Type} [DecidableEq α] (l : List α) :
    ∀ (seen : List α) (a : α),
      a ∈ dedupFirstAux seen l ↔ a ∈ l ∧ a ∉ seen := by
  induction l with
  | nil => intro seen a; simp [dedupFirstAux]
  | cons x rest ih =>
    intro seen a
    by_cases hx : x ∈ seen
    · rw [dedupFirstAux, if_pos hx, ih]
      constructor
      · rintro ⟨h1, h2⟩
        exact ⟨List.mem_cons_of_mem _ h1, h2⟩
      · rintro ⟨h1, h2⟩
        rcases List.mem_cons.1 h1 with h1' | h1'
        · exact absurd (h1' ▸ hx) h2
        · exact ⟨h1', h2⟩
    · rw [dedupFirstAux, if_neg hx]
      constructor
      · intro h
        rcases List.mem_cons.1 h with h' | h'
        · exact ⟨h' ▸ List.mem_cons_self _ _, h' ▸ hx⟩
        · obtain ⟨ha1, ha2⟩ := (ih (x :: seen) a).1 h'
          exact ⟨List.mem_cons_of_mem _ ha1,
            fun hs => ha2 (List.mem_cons_of_mem _ hs)⟩
      · rintro ⟨h1, h2⟩
        rcases List.mem_cons.1 h1 with h1' | h1'
        · exact h1' ▸ List.mem_cons_self _ _
        · by_cases hax : a = x
          · exact hax ▸ List.mem_cons_self _ _
          · refine List.mem_cons_of_mem _ ((ih (x :: seen) a).2 ⟨h1', ?_⟩)
            intro hmem
            rcases List.mem_cons.1 hmem with h' | h'
            · exact hax h'
            · exact h2 h'

theorem mem_dedupFirst {α : Type} [DecidableEq α] (l : List α) (a : α) :
    a ∈ dedupFirst l ↔ a ∈ l := by
  rw [dedupFirst, mem_dedupFirstAux]
  simp

theorem dedupFirstAux_nodup {α : Type} [DecidableEq α] (l : List α) :
    ∀ seen : List α, (dedupFirstAux seen l).Nodup := by
  induction l with
  | nil => intro seen; simp [dedupFirstAux]
  | cons x rest ih =>
    intro seen
    by_cases hx : x ∈ seen
    · rw [dedupFirstAux, if_pos hx]
      exact ih seen
    · rw [dedupFirstAux, if_neg hx]
      refine List.nodup_cons.2 ⟨?_, ih (x :: seen)⟩
      intro hmem
      exact ((mem_dedupFirstAux rest (x :: seen) x).1 hmem).2
        (List.mem_cons_self _ _)

theorem dedupFirst_nodup {α : Type} [DecidableEq α] (l : List α) :
    (dedupFirst l).Nodup :=
  dedupFirstAux_nodup l []

theorem dedupFirstAux_eq_self {α : Type} [DecidableEq α] (l : List α) :
    ∀ seen : List α, l.Nodup → (∀ a ∈ l, a ∉ seen) →
      dedupFirstAux seen l = l := by
  induction l with
  | nil => intro seen _ _; simp [dedupFirstAux]
  | cons x rest ih =>
    intro seen hnd hdisj
    have hx : x ∉ seen := hdisj x (List.mem_cons_self _ _)
    rw [dedupFirstAux, if_neg hx]
    congr 1
    refine ih (x :: seen) (List.nodup_cons.1 hnd).2 ?_
    intro a ha hmem
    rcases List.mem_cons.1 hmem with h' | h'
    · exact (List.nodup_cons.1 hnd).1 (h' ▸ ha)
    · exact hdisj a (List.mem_cons_of_mem _ ha) h'

theorem dedupFirst_eq_self {α : Type} [DecidableEq α] (l : List α)
    (h : l.Nodup) : dedupFirst l = l :=
  dedupFirstAux_eq_self l [] h (by simp)

theorem addConnEdge_nodup (V : List Nat)
    (st : List (Nat × Nat) × List (Nat × Int)) (c : Connection)
    (h : st.1.Nodup) : (addConnEdge V st c).1.Nodup := by
  unfold addConnEdge
  by_cases h1 : c.source_component_id ∈ V ∧ c.target_component_id ∈ V
  · by_cases h2 : (c.source_component_id, c.target_component_id) ∈ st.1
    · simpa [h1, h2] using h
    · simp only [h1, and_self, if_pos, h2, if_neg, not_false_iff]
      simp [List.nodup_append, h, h2]
  · simpa [h1] using h

theorem addConnEdge_endpoints (V : List Nat)
    (st : List (Nat × Nat) × List (Nat × Int)) (c : Connection)
    (h : ∀ e ∈ st.1, e.1 ∈ V ∧ e.2 ∈ V) :
    ∀ e ∈ (addConnEdge V st c).1, e.1 ∈ V ∧ e.2 ∈ V := by
  unfold addConnEdge
  by_cases h1 : c.source_component_id ∈ V ∧ c.target_component_id ∈ V
  · by_cases h2 : (c.source_component_id, c.target_component_id) ∈ st.1
    · simpa [h1, h2] using h
    · simp only [h1, and_self, if_pos, h2, if_neg, not_false_iff]
      intro e he
      rcases List.mem_append.1 he with h' | h'
      · exact h e h'
      · simp only [List.mem_singleton] at h'
        subst h'
        exact h1
  · simpa [h1] using h

theorem addConnEdge_deg (V : List Nat)
    (st : List (Nat × Nat) × List (Nat × Int)) (c : Connection)
    (h : ∀ v, degLookup st.2 v = ((st.1.filter (fun e => e.2 = v)).length : Int)) :
    ∀ v, degLookup (addConnEdge V st c).2 v =
      (((addConnEdge V st c).1.filter (fun e => e.2 = v)).length : Int) := by
  unfold addConnEdge
  by_cases h1 : c.source_component_id ∈ V ∧ c.target_component_id ∈ V
  · by_cases h2 : (c.source_component_id, c.target_component_id) ∈ st.1
    · simpa [h1, h2] using h
    · simp only [h1, and_self, if_pos, h2, if_neg, not_false_iff]
      intro v
      rw [degLookup_degInc, h v, List.filter_append]
      by_cases hv : v = c.target_component_id
      · subst hv
        simp [List.length_append]
      · have : ¬ c.target_component_id = v := fun hh => hv hh.symm
        simp [hv, this]
  · simpa [h1] using h

theorem addConnEdge_mono (V : List Nat)
    (st : List (Nat × Nat) × List (Nat × Int)) (c : Connection) :
    ∀ e ∈ st.1, e ∈ (addConnEdge V st c).1 := by
  unfold addConnEdge
  by_cases h1 : c.source_component_id ∈ V ∧ c.target_component_id ∈ V
  · by_cases h2 : (c.source_component_id, c.target_component_id) ∈ st.1
    · simp [h1, h2]
    · simp only [h1, and_self, if_pos, h2, if_neg, not_false_iff]
      intro e he
      exact List.mem_append_left _ he
  · simp [h1]

theorem addConnEdge_adds (V : List Nat)
    (st : List (Nat × Nat) × List (Nat × Int)) (c : Connection)
    (hs : c.source_component_id ∈ V) (ht : c.target_component_id ∈ V) :
    (c.source_component_id, c.target_component_id) ∈ (addConnEdge V st c).1 := by
  unfold addConnEdge
  by_cases h2 : (c.source_component_id, c.target_component_id) ∈ st.1
  · simp [hs, ht, h2]
  · simp [hs, ht, h2]

theorem foldl_addConnEdge_nodup (V : List Nat) (cs : List Connection) :
    ∀ st, st.1.Nodup → (cs.foldl (addConnEdge V) st).1.Nodup := by
  induction cs with
  | nil => exact fun st h => h
  | cons c rest ih =>
    intro st h
    exact ih _ (addConnEdge_nodup V st c h)

theorem foldl_addConnEdge_endpoints (V : List Nat) (cs : List Connection) :
    ∀ st, (∀ e ∈ st.1, e.1 ∈ V ∧ e.2 ∈ V) →
      ∀ e ∈ (cs.foldl (addConnEdge V) st).1, e.1 ∈ V ∧ e.2 ∈ V := by
  induction cs with
  | nil => exact fun st h => h
  | cons c rest ih =>
    intro st h
    exact ih _ (addConnEdge_endpoints V st c h)

theorem foldl_addConnEdge_deg (V : List Nat) (cs : List Connection) :
    ∀ st, (∀ v, degLookup st.2 v = ((st.1.filter (fun e => e.2 = v)).length : Int)) →
      ∀ v, degLookup (cs.foldl (addConnEdge V) st).2 v =
        (((cs.foldl (addConnEdge V) st).1.filter (fun e => e.2 = v)).length : Int) := by
  induction cs with
  | nil => exact fun st h => h
  | cons c rest ih =>
    intro st h
    exact ih _ (addConnEdge_deg V st c h)

theorem foldl_addConnEdge_mono (V : List Nat) (cs : List Connection) :
    ∀ st, ∀ e ∈ st.1, e ∈ (cs.foldl (addConnEdge V) st).1 := by
  induction cs with
  | nil => exact fun st e he => he
  | cons c rest ih =>
    intro st e he
    exact ih _ _ (addConnEdge_mono V st c e he)

theorem buildGraph_edges_nodup (V : List Nat) (cs : List Connection) :
    (buildGraph V cs).1.Nodup :=
  foldl_addConnEdge_nodup V cs _ (by simp)

theorem buildGraph_edges_endpoints (V : List Nat) (cs : List Connection) :
    ∀ e ∈ (buildGraph V cs).1, e.1 ∈ V ∧ e.2 ∈ V :=
  foldl_addConnEdge_endpoints V cs _ (by simp)

theorem degLookup_init (V : List Nat) (v : Nat) :
    degLookup (V.map (fun i => (i, (0 : Int)))) v = 0 := by
  induction V with
  | nil => simp [degLookup, alGet]
  | cons x rest ih =>
    by_cases h : x = v
    · simp [degLookup, alGet, h]
    · simpa [degLookup, alGet, h] using ih

theorem buildGraph_deg (V : List Nat) (cs : List Connection) :
    ∀ v, degLookup (buildGraph V cs).2 v =
      (((buildGraph V cs).1.filter (fun e => e.2 = v)).length : Int) :=
  foldl_addConnEdge_deg V cs _ (fun v => by simp [degLookup_init])

theorem mem_buildGraph_edges (V : List Nat) (cs : List Connection)
    (c : Connection) (hc : c ∈ cs)
    (hs : c.source_component_id ∈ V) (ht : c.target_component_id ∈ V) :
    (c.source_component_id, c.target_component_id) ∈ (buildGraph V cs).1 := by
  have main : ∀ (l : List Connection) (st : List (Nat × Nat) × List (Nat × Int)),
      c ∈ l →
      (c.source_component_id, c.target_component_id) ∈ (l.foldl (addConnEdge V) st).1 := by
    intro l
    induction l with
    | nil => intro st hmem; cases hmem
    | cons c' rest ih =>
      intro st hmem
      rcases List.mem_cons.1 hmem with h | h
      · subst h
        exact foldl_addConnEdge_mono V rest _ _ (addConnEdge_adds V st c hs ht)
      · exact ih _ h
  exact main cs _ hc

theorem adjOf_cons (e : Nat × Nat) (rest : List (Nat × Nat)) (u : Nat) :
    adjOf (e :: rest) u =
      if e.1 = u then e.2 :: adjOf rest u else adjOf rest u := by
  by_cases h : e.1 = u <;> simp [adjOf, List.filter_cons, h]

theorem mem_adjOf (edges : List (Nat × Nat)) (u v : Nat) :
    v ∈ adjOf edges u ↔ (u, v) ∈ edges := by
  induction edges with
  | nil => simp [adjOf]
  | cons e rest ih =>
    rw [adjOf_cons]
    by_cases h : e.1 = u
    · rw [if_pos h, List.mem_cons, List.mem_cons, ih, Prod.ext_iff]
      subst h
      simp
    · rw [if_neg h, ih, List.mem_cons, Prod.ext_iff]
      have h' : ¬ u = e.1 := fun hh => h hh.symm
      simp [h']

theorem adjOf_nodup (edges : List (Nat × Nat)) (u : Nat) (h : edges.Nodup) :
    (adjOf edges u).Nodup := by
  induction edges with
  | nil => simp [adjOf]
  | cons e rest ih =>
    have h1 := (List.nodup_cons.1 h).1
    have h2 := (List.nodup_cons.1 h).2
    rw [adjOf_cons]
    by_cases he : e.1 = u
    · simp only [he, if_pos]
      refine List.nodup_cons.2 ⟨?_, ih h2⟩
      intro hmem
      rw [mem_adjOf] at hmem
      apply h1
      have : (u, e.2) = e := by cases e; simp_all
      rwa [this] at hmem
    · simpa [he] using ih h2

theorem count_nodup (l : List Nat) (h : l.Nodup) (v : Nat) :
    l.count v = if v ∈ l then 1 else 0 := by
  by_cases hv : v ∈ l
  · simp only [hv, if_pos]
    exact List.count_eq_one_of_mem h hv
  · simp only [hv, if_neg, not_false_iff]
    exact List.count_eq_zero_of_not_mem hv

theorem processNeighbors_deg (vs : List Nat) :
    ∀ (queue : List Nat) (deg : List (Nat × Int)) (v : Nat),
      degLookup (processNeighbors vs queue deg).2 v =
        degLookup deg v - (vs.count v : Int) := by
  induction vs with
  | nil => intro queue deg v; simp [processNeighbors]
  | cons w rest ih =>
    intro queue deg v
    simp only [processNeighbors]
    rw [ih, degLookup_degDec]
    simp only [List.count_cons, beq_iff_eq]
    split_ifs <;> push_cast <;> omega

theorem processNeighbors_queue (vs : List Nat) :
    ∀ (queue : List Nat) (deg : List (Nat × Int)), vs.Nodup →
      (processNeighbors vs queue deg).1 =
        queue ++ vs.filter (fun v => degLookup deg v = 1) := by
  induction vs with
  | nil => intro queue deg _; simp [processNeighbors]
  | cons w rest ih =>
    intro queue deg hnd
    have hw : w ∉ rest := (List.nodup_cons.1 hnd).1
    have hrest : rest.Nodup := (List.nodup_cons.1 hnd).2
    simp only [processNeighbors]
    rw [ih _ _ hrest]
    have hdec : degLookup (degDec deg w) w = degLookup deg w - 1 := by
      rw [degLookup_degDec]; simp
    have hfilter : rest.filter (fun v => degLookup (degDec deg w) v = 1) =
        rest.filter (fun v => degLookup deg v = 1) := by
      apply List.filter_congr
      intro v hv
      have hvw : ¬ v = w := fun hh => hw (hh ▸ hv)
      rw [degLookup_degDec]
      simp [hvw]
    rw [hfilter]
    by_cases hz : degLookup (degDec deg w) w = 0
    · have h1 : degLookup deg w = 1 := by rw [hdec] at hz; omega
      simp only [hz, if_pos, List.filter_cons, h1, decide_True, if_true]
      simp [List.append_assoc]
    · have h1 : ¬ degLookup deg w = 1 := by rw [hdec] at hz; omega
      simp only [hz, if_neg, not_false_iff, List.filter_cons, h1,
        decide_False, if_false]
      simp

theorem indexOf_append_left {l l' : List Nat} {a : Nat} (h : a ∈ l) :
    (l ++ l').indexOf a = l.indexOf a := by
  induction l with
  | nil => cases h
  | cons x rest ih =>
    rcases List.mem_cons.1 h with h' | h'
    · subst h'
      simp [List.indexOf_cons]
    · by_cases hx : x = a
      · simp [List.indexOf_cons, hx]
      · simp only [List.cons_append, List.indexOf_cons, beq_iff_eq, hx,
          if_neg, not_false_iff, ih h']

theorem indexOf_append_self {l : List Nat} {a : Nat} (h : a ∉ l) :
    (l ++ [a]).indexOf a = l.length := by
  induction l with
  | nil => simp [List.indexOf_cons]
  | cons x rest ih =>
    have hx : ¬ x = a := fun hh => h (hh ▸ List.mem_cons_self _ _)
    have hrest : a ∉ rest := fun hh => h (List.mem_cons_of_mem _ hh)
    simp [List.cons_append, List.indexOf_cons, hx, ih hrest]

theorem filter_sorted_snoc (edges : List (Nat × Nat)) (hnd : edges.Nodup)
    (sorted : List Nat) (u v : Nat) (hu : u ∉ sorted) :
    (edges.filter (fun e => e.2 = v ∧ e.1 ∉ sorted)).length =
      (edges.filter (fun e => e.2 = v ∧ e.1 ∉ sorted ++ [u])).length +
      (if (u, v) ∈ edges then 1 else 0) := by
  induction edges with
  | nil => simp
  | cons e rest ih =>
    have h1 : e ∉ rest := (List.nodup_cons.1 hnd).1
    have h2 : rest.Nodup := (List.nodup_cons.1 hnd).2
    rw [List.filter_cons, List.filter_cons]
    by_cases heq : e = (u, v)
    · subst heq
      have huv : (u, v) ∉ rest := h1
      rw [if_pos (by simp [hu]), if_neg (by simp),
        if_pos (List.mem_cons_self _ _), List.length_cons, ih h2, if_neg huv]
    · have hne : ¬ (u, v) = e := fun hh => heq hh.symm
      by_cases h2v : e.2 = v
      · have h1u : ¬ e.1 = u := by
          intro hh
          exact heq (by cases e; simp_all)
        by_cases hs : e.1 ∈ sorted
        · rw [if_neg (by simp [hs]), if_neg (by simp [hs])]
          simp only [List.mem_cons, hne, false_or]
          exact ih h2
        · rw [if_pos (by simp [h2v, hs]), if_pos (by simp [h2v, hs, h1u]),
            List.length_cons, List.length_cons]
          simp only [List.mem_cons, hne, false_or]
          rw [ih h2]
          omega
      · rw [if_neg (by simp [h2v]), if_neg (by simp [h2v])]
        simp only [List.mem_cons, hne, false_or]
        exact ih h2

theorem KInv.sorted_zero {edges : List (Nat × Nat)} {V queue : List Nat}
    {deg : List (Nat × Int)} {sorted : List Nat}
    (h : KInv edges V queue deg sorted) :
    ∀ v ∈ sorted, degLookup deg v = 0 := by
  intro v hv
  rw [h.deg_eq]
  have hnil : edges.filter (fun e => e.2 = v ∧ e.1 ∉ sorted) = [] := by
    rw [List.eq_nil_iff_forall_not_mem]
    intro e he
    have hmem := List.mem_filter.1 he
    have hprops : e.2 = v ∧ e.1 ∉ sorted := by simpa using hmem.2
    exact hprops.2 (h.topo e hmem.1 (hprops.1 ▸ hv)).1
  rw [hnil]
  simp

theorem KInv.step {edges : List (Nat × Nat)} {V : List Nat} {u : Nat}
    {rest : List Nat} {deg : List (Nat × Int)} {sorted : List Nat}
    (hE : edges.Nodup) (hEV : ∀ e ∈ edges, e.1 ∈ V ∧ e.2 ∈ V)
    (h : KInv edges V (u :: rest) deg sorted) :
    KInv edges V (processNeighbors (adjOf edges u) rest deg).1
      (processNeighbors (adjOf edges u) rest deg).2 (sorted ++ [u]) := by
  have hAnd : (adjOf edges u).Nodup := adjOf_nodup edges u hE
  have hq : (processNeighbors (adjOf edges u) rest deg).1 =
      rest ++ (adjOf edges u).filter (fun v => degLookup deg v = 1) :=
    processNeighbors_queue _ _ _ hAnd
  have hd : ∀ v, degLookup (processNeighbors (adjOf edges u) rest deg).2 v =
      degLookup deg v - (if (u, v) ∈ edges then 1 else 0) := by
    intro v
    rw [processNeighbors_deg, count_nodup _ hAnd v]
    by_cases hm : (u, v) ∈ edges
    · have hmv : v ∈ adjOf edges u := (mem_adjOf edges u v).2 hm
      simp [hmv, hm]
    · have hmv : v ∉ adjOf edges u := fun hh => hm ((mem_adjOf edges u v).1 hh)
      simp [hmv, hm]
  obtain ⟨hnodup_sorted, hnodup_urest, hdisj⟩ := List.nodup_append.1 h.nodupSQ
  have hu_sorted : u ∉ sorted := fun hm => hdisj hm (List.mem_cons_self _ _)
  have hu_rest : u ∉ rest := (List.nodup_cons.1 hnodup_urest).1
  have hnodup_rest : rest.Nodup := (List.nodup_cons.1 hnodup_urest).2
  have hdeg_u : degLookup deg u = 0 := h.queue_zero u (List.mem_cons_self _ _)
  have hedge_imp : ∀ v, (u, v) ∈ edges → 1 ≤ degLookup deg v := by
    intro v hm
    rw [h.deg_eq]
    have hmf : (u, v) ∈ edges.filter (fun e => e.2 = v ∧ e.1 ∉ sorted) :=
      List.mem_filter.2 ⟨hm, by simp [hu_sorted]⟩
    have hlen : 0 < (edges.filter (fun e => e.2 = v ∧ e.1 ∉ sorted)).length :=
      List.length_pos_of_mem hmf
    exact_mod_cast hlen
  have hnew_edge : ∀ v ∈ (adjOf edges u).filter (fun v => degLookup deg v = 1),
      (u, v) ∈ edges := fun v hv =>
    (mem_adjOf edges u v).1 (List.mem_filter.1 hv).1
  have hnew_deg : ∀ v ∈ (adjOf edges u).filter (fun v => degLookup deg v = 1),
      degLookup deg v = 1 := by
    intro v hv
    have := (List.mem_filter.1 hv).2
    simpa using this
  have hnew_not_sorted : ∀ v ∈ (adjOf edges u).filter
      (fun v => degLookup deg v = 1), v ∉ sorted := by
    intro v hv hm
    have h0 := h.sorted_zero v hm
    have h1 := hnew_deg v hv
    omega
  have hnew_not_uq : ∀ v ∈ (adjOf edges u).filter
      (fun v => degLookup deg v = 1), v ∉ u :: rest := by
    intro v hv hm
    have h0 := h.queue_zero v hm
    have h1 := hnew_deg v hv
    omega
  have hnew_nodup : ((adjOf edges u).filter
      (fun v => degLookup deg v = 1)).Nodup := hAnd.filter _
  have hpred_sorted : ∀ e ∈ edges, e.2 = u → e.1 ∈ sorted := by
    intro e he h2
    by_contra hns
    have hmf : e ∈ edges.filter (fun e => e.2 = u ∧ e.1 ∉ sorted) :=
      List.mem_filter.2 ⟨he, by simp [h2, hns]⟩
    have hlen : 0 < (edges.filter (fun e => e.2 = u ∧ e.1 ∉ sorted)).length :=
      List.length_pos_of_mem hmf
    have := h.deg_eq u
    omega
  constructor
  case nodupSQ =>
    rw [hq]
    have hSnodup : (sorted ++ [u]).Nodup := by
      rw [List.nodup_append]
      exact ⟨hnodup_sorted, List.nodup_singleton u,
        fun a ha hb => hu_sorted ((List.mem_singleton.1 hb) ▸ ha)⟩
    rw [List.nodup_append]
    refine ⟨hSnodup, ?_, ?_⟩
    · rw [List.nodup_append]
      refine ⟨hnodup_rest, hnew_nodup, ?_⟩
      intro a ha hb
      have h0 := h.queue_zero a (List.mem_cons_of_mem _ ha)
      have h1 := hnew_deg a hb
      omega
    · intro a ha hb
      rcases List.mem_append.1 ha with ha' | ha'
      · rcases List.mem_append.1 hb with hb' | hb'
        · exact hdisj ha' (List.mem_cons_of_mem _ hb')
        · exact hnew_not_sorted a hb' ha'
      · have hau : a = u := List.mem_singleton.1 ha'
        subst hau
        rcases List.mem_append.1 hb with hb' | hb'
        · exact hu_rest hb'
        · exact hnew_not_uq a hb' (List.mem_cons_self _ _)
  case queue_sub =>
    intro v hv
    rw [hq] at hv
    rcases List.mem_append.1 hv with hv' | hv'
    · exact h.queue_sub v (List.mem_cons_of_mem _ hv')
    · exact (hEV _ (hnew_edge v hv')).2
  case sorted_sub =>
    intro v hv
    rcases List.mem_append.1 hv with hv' | hv'
    · exact h.sorted_sub v hv'
    · exact (List.mem_singleton.1 hv') ▸ h.queue_sub u (List.mem_cons_self _ _)
  case deg_eq =>
    intro v
    rw [hd v, h.deg_eq v, filter_sorted_snoc edges hE sorted u v hu_sorted]
    split_ifs <;> push_cast <;> omega
  case queue_zero =>
    intro v hv
    rw [hq] at hv
    rw [hd v]
    rcases List.mem_append.1 hv with hv' | hv'
    · have h0 := h.queue_zero v (List.mem_cons_of_mem _ hv')
      have hnm : (u, v) ∉ edges := by
        intro hm
        have := hedge_imp v hm
        omega
      simp [hnm, h0]
    · have h1 := hnew_deg v hv'
      have hm := hnew_edge v hv'
      simp [hm, h1]
  case zero_mem =>
    intro v hvV hz
    rw [hd v] at hz
    by_cases hm : (u, v) ∈ edges
    · rw [if_pos hm] at hz
      have h1 : degLookup deg v = 1 := by omega
      have hmv : v ∈ adjOf edges u := (mem_adjOf edges u v).2 hm
      right
      rw [hq]
      refine List.mem_append.2 (Or.inr ?_)
      exact List.mem_filter.2 ⟨hmv, by simp [h1]⟩
    · rw [if_neg hm] at hz
      have h0 : degLookup deg v = 0 := by omega
      rcases h.zero_mem v hvV h0 with hs | hqv
      · exact Or.inl (List.mem_append.2 (Or.inl hs))
      · rcases List.mem_cons.1 hqv with hvu | hvr
        · exact Or.inl (List.mem_append.2 (Or.inr (by simp [hvu])))
        · right
          rw [hq]
          exact List.mem_append.2 (Or.inl hvr)
  case topo =>
    intro e he hmem
    rcases List.mem_append.1 hmem with hs | hu'
    · obtain ⟨h1, hlt⟩ := h.topo e he hs
      refine ⟨List.mem_append.2 (Or.inl h1), ?_⟩
      rw [indexOf_append_left h1, indexOf_append_left hs]
      exact hlt
    · have h2u : e.2 = u := List.mem_singleton.1 hu'
      have h1 : e.1 ∈ sorted := hpred_sorted e he h2u
      refine ⟨List.mem_append.2 (Or.inl h1), ?_⟩
      rw [indexOf_append_left h1, h2u, indexOf_append_self hu_sorted]
      exact List.indexOf_lt_length.2 h1

theorem kahnLoop_inv (edges : List (Nat × Nat)) (V : List Nat)
    (hE : edges.Nodup) (hEV : ∀ e ∈ edges, e.1 ∈ V ∧ e.2 ∈ V)
    (queue : List Nat) (deg : List (Nat × Int)) (sorted : List Nat) :
    KInv edges V queue deg sorted →
    ∃ degF, KInv edges V [] degF (kahnLoop edges queue deg sorted) := by
  induction queue, deg, sorted using kahnLoop.induct edges with
  | case1 deg sorted =>
    intro hinv
    exact ⟨deg, by simpa [kahnLoop] using hinv⟩
  | case2 u rest deg sorted ih =>
    intro hinv
    rw [kahnLoop]
    exact ih (KInv.step hE hEV hinv)

theorem kahnSorted_inv (components : List ComponentInfo)
    (connections : List Connection) :
    ∃ degF,
      KInv (buildGraph (dedupFirst (components.map (fun c => c.id))) connections).1
        (dedupFirst (components.map (fun c => c.id))) [] degF
        (kahnSorted components connections) := by
  have hE := buildGraph_edges_nodup
    (dedupFirst (components.map (fun c => c.id))) connections
  have hEV := buildGraph_edges_endpoints
    (dedupFirst (components.map (fun c => c.id))) connections
  have hinit : KInv
      (buildGraph (dedupFirst (components.map (fun c => c.id))) connections).1
      (dedupFirst (components.map (fun c => c.id)))
      ((dedupFirst (components.map (fun c => c.id))).filter
        (fun i => degLookup
          (buildGraph (dedupFirst (components.map (fun c => c.id))) connections).2
          i = 0))
      (buildGraph (dedupFirst (components.map (fun c => c.id))) connections).2
      [] := by
    constructor
    case nodupSQ => simpa using (dedupFirst_nodup _).filter _
    case queue_sub => intro v hv; exact (List.mem_filter.1 hv).1
    case sorted_sub => intro v hv; cases hv
    case deg_eq =>
      intro v
      rw [buildGraph_deg]
      norm_cast
      congr 1
      apply List.filter_congr
      intro e he
      simp
    case queue_zero =>
      intro v hv
      have := (List.mem_filter.1 hv).2
      simpa using this
    case zero_mem =>
      intro v hv h0
      exact Or.inr (List.mem_filter.2 ⟨hv, by simp [h0]⟩)
    case topo => intro e he hmem; cases hmem
  exact kahnLoop_inv _ _ hE hEV _ _ _ hinit

theorem kahn_complete {edges : List (Nat × Nat)} {V : List Nat}
    {degF : List (Nat × Int)} {sortedF : List Nat}
    (hEV : ∀ e ∈ edges, e.1 ∈ V ∧ e.2 ∈ V)
    (hfin : KInv edges V [] degF sortedF) (hacyc : EdgeAcyclic edges) :
    ∀ v ∈ V, v ∈ sortedF := by
  obtain ⟨f, hf⟩ := hacyc
  have main : ∀ n v, f v = n → v ∈ V → v ∈ sortedF := by
    intro n
    induction n using Nat.strong_induction_on with
    | _ n ih =>
      intro v hfv hvV
      by_contra hvs
      have hz : ¬ degLookup degF v = 0 := by
        intro h0
        rcases hfin.zero_mem v hvV h0 with hmem | hmem
        · exact hvs hmem
        · cases hmem
      rw [hfin.deg_eq] at hz
      rcases hfe : edges.filter (fun e => e.2 = v ∧ e.1 ∉ sortedF)
        with _ | ⟨e, tail⟩
      · rw [hfe] at hz; simp at hz
      · have hemem : e ∈ edges.filter (fun e => e.2 = v ∧ e.1 ∉ sortedF) := by
          rw [hfe]; exact List.mem_cons_self _ _
        have hprops := List.mem_filter.1 hemem
        have hpe : e.2 = v ∧ e.1 ∉ sortedF := by simpa using hprops.2
        have hflt : f e.1 < n := by
          have := hf e hprops.1
          rw [hpe.1, hfv] at this
          exact this
        exact hpe.2 (ih (f e.1) hflt e.1 rfl (hEV e hprops.1).1)
  intro v hv
  exact main (f v) v rfl hv

theorem kahnSorted_nodup (components : List ComponentInfo)
    (connections : List Connection) :
    (kahnSorted components connections).Nodup := by
  obtain ⟨degF, hfin⟩ := kahnSorted_inv components connections
  simpa using hfin.nodupSQ

theorem kahnSorted_subset (components : List ComponentInfo)
    (connections : List Connection) :
    ∀ v ∈ kahnSorted components connections,
      v ∈ dedupFirst (components.map (fun c => c.id)) := by
  obtain ⟨degF, hfin⟩ := kahnSorted_inv components connections
  exact hfin.sorted_sub

/-- C4: for a snapshot whose components have pairwise-distinct ids, the
execution order returned by `_get_execution_order` is a permutation of the
snapshot's component ids; and whenever the Kahn sort emits fewer vertices
than there are component ids (a cycle was detected), the returned order is
exactly the components' snapshot order. -/
theorem execution_order_ids_perm (components : List ComponentInfo)
    (connections : List Connection)
    (hnodup : (components.map (fun c => c.id)).Nodup) :
    (get_execution_order components connections).Perm
      (components.map (fun c => c.id)) ∧
    ((kahnSorted components connections).length ≠
        (dedupFirst (components.map (fun c => c.id))).length →
      get_execution_order components connections =
        components.map (fun c => c.id)) := by
  constructor
  · by_cases hc : (kahnSorted components connections).length ≠
        (dedupFirst (components.map (fun c => c.id))).length
    · simp only [get_execution_order]
      rw [if_pos hc]
    · simp only [get_execution_order]
      rw [if_neg hc]
      push_neg at hc
      have hsp := List.subperm_of_subset (kahnSorted_nodup components connections)
        (kahnSorted_subset components connections)
      have hperm := hsp.perm_of_length_le (le_of_eq hc.symm)
      rwa [dedupFirst_eq_self _ hnodup] at hperm
  · intro hc
    simp only [get_execution_order]
    rw [if_pos hc]

/-- Witness for C4 at a concrete two-component snapshot. -/
theorem execution_order_ids_perm_witness :
    ((([⟨1, "A", "Heater", none⟩, ⟨2, "B", "Valve", none⟩] :
        List ComponentInfo).map (fun c => c.id)).Nodup) ∧
    ((get_execution_order [⟨1, "A", "Heater", none⟩, ⟨2, "B", "Valve", none⟩]
        [⟨7, 1, 1, 2, some "temperature", some "ControlSignal"⟩]).Perm
      (([⟨1, "A", "Heater", none⟩, ⟨2, "B", "Valve", none⟩] :
        List ComponentInfo).map (fun c => c.id)) ∧
    ((kahnSorted [⟨1, "A", "Heater", none⟩, ⟨2, "B", "Valve", none⟩]
          [⟨7, 1, 1, 2, some "temperature", some "ControlSignal"⟩]).length ≠
        (dedupFirst (([⟨1, "A", "Heater", none⟩, ⟨2, "B", "Valve", none⟩] :
          List ComponentInfo).map (fun c => c.id))).length →
      get_execution_order [⟨1, "A", "Heater", none⟩, ⟨2, "B", "Valve", none⟩]
          [⟨7, 1, 1, 2, some "temperature", some "ControlSignal"⟩] =
        ([⟨1, "A", "Heater", none⟩, ⟨2, "B", "Valve", none⟩] :
          List ComponentInfo).map (fun c => c.id))) :=
  ⟨by decide, execution_order_ids_perm _ _ (by decide)⟩

/-- C3: when the edge graph induced by the connections over the snapshot's
component ids is acyclic, every connection with both ports present and both
endpoints known appears source-before-target in the execution order
returned by `_get_execution_order`. -/
theorem execution_order_respects_connections
    (components : List ComponentInfo) (connections : List Connection)
    (hacyc : EdgeAcyclic
      (buildGraph (dedupFirst (components.map (fun c => c.id))) connections).1)
    (conn : Connection) (hmem : conn ∈ connections)
    (_hsp : portPresent conn.source_port = true)
    (_htp : portPresent conn.target_port = true)
    (hs : conn.source_component_id ∈ components.map (fun c => c.id))
    (ht : conn.target_component_id ∈ components.map (fun c => c.id)) :
    conn.source_component_id ∈ get_execution_order components connections ∧
    conn.target_component_id ∈ get_execution_order components connections ∧
    (get_execution_order components connections).indexOf
        conn.source_component_id <
      (get_execution_order components connections).indexOf
        conn.target_component_id := by
  obtain ⟨degF, hfin⟩ := kahnSorted_inv components connections
  have hsV : conn.source_component_id ∈
      dedupFirst (components.map (fun c => c.id)) := (mem_dedupFirst _ _).2 hs
  have htV : conn.target_component_id ∈
      dedupFirst (components.map (fun c => c.id)) := (mem_dedupFirst _ _).2 ht
  have hedge := mem_buildGraph_edges
    (dedupFirst (components.map (fun c => c.id))) connections conn hmem hsV htV
  have hEV := buildGraph_edges_endpoints
    (dedupFirst (components.map (fun c => c.id))) connections
  have hcomplete := kahn_complete hEV hfin hacyc
  have hnd := kahnSorted_nodup components connections
  have hsub := kahnSorted_subset components connections
  have hlen : (kahnSorted components connections).length =
      (dedupFirst (components.map (fun c => c.id))).length :=
    ((List.subperm_of_subset hnd hsub).perm_of_length_le
      ((List.subperm_of_subset (dedupFirst_nodup _) hcomplete).length_le)).length_eq
  have hgoal : get_execution_order components connections =
      kahnSorted components connections := by
    simp only [get_execution_order]
    rw [if_neg (by omega)]
  rw [hgoal]
  have hsS := hcomplete _ hsV
  have htS := hcomplete _ htV
  have htopo := hfin.topo (conn.source_component_id, conn.target_component_id)
    hedge htS
  exact ⟨htopo.1, htS, htopo.2⟩

/-- Witness for C3: an acyclic two-component snapshot whose single
connection is fully specified. -/
theorem execution_order_respects_connections_witness :
    EdgeAcyclic (buildGraph
      (dedupFirst (([⟨1, "A", "Heater", none⟩, ⟨2, "B", "Valve", none⟩] :
        List ComponentInfo).map (fun c => c.id)))
      [⟨7, 1, 1, 2, some "temperature", some "ControlSignal"⟩]).1 ∧
    ((1 : Nat) ∈ get_execution_order
        [⟨1, "A", "Heater", none⟩, ⟨2, "B", "Valve", none⟩]
        [⟨7, 1, 1, 2, some "temperature", some "ControlSignal"⟩] ∧
      (2 : Nat) ∈ get_execution_order
        [⟨1, "A", "Heater", none⟩, ⟨2, "B", "Valve", none⟩]
        [⟨7, 1, 1, 2, some "temperature", some "ControlSignal"⟩] ∧
      (get_execution_order [⟨1, "A", "Heater", none⟩, ⟨2, "B", "Valve", none⟩]
          [⟨7, 1, 1, 2, some "temperature", some "ControlSignal"⟩]).indexOf 1 <
        (get_execution_order [⟨1, "A", "Heater", none⟩, ⟨2, "B", "Valve", none⟩]
          [⟨7, 1, 1, 2, some "temperature", some "ControlSignal"⟩]).indexOf 2) :=
  ⟨⟨fun n => n, by decide⟩,
    execution_order_respects_connections
      [⟨1, "A", "Heater", none⟩, ⟨2, "B", "Valve", none⟩]
      [⟨7, 1, 1, 2, some "temperature", some "ControlSignal"⟩]
      ⟨fun n => n, by decide⟩
      ⟨7, 1, 1, 2, some "temperature", some "ControlSignal"⟩
      (by decide) (by decide) (by decide) (by decide) (by decide)⟩

theorem foldl_filter_skip {α β : Type} (f : β → α → β) (p : α → Bool)
    (h : ∀ b a, p a = false → f b a = b) (l : List α) :
    ∀ acc, l.foldl f acc = (l.filter p).foldl f acc := by
  induction l with
  | nil => intro acc; rfl
  | cons x rest ih =>
    intro acc
    rcases hx : p x with _ | _
    · rw [List.foldl_cons, h acc x hx, List.filter_cons, if_neg (by simp [hx]),
        ih]
    · rw [List.foldl_cons, List.filter_cons, if_pos (by simp [hx]),
        List.foldl_cons, ih]

theorem gatherInternalStep_skip
    (prevStates : List (Nat × List (String × Value))) (compId : Nat)
    (inputs : List (String × Value)) (conn : Connection)
    (h : (portPresent conn.source_port && portPresent conn.target_port) = false) :
    gatherInternalStep prevStates compId inputs conn = inputs := by
  rcases htp : conn.target_port with _ | tp
  · simp [gatherInternalStep, htp]
  · rcases hsp : conn.source_port with _ | sp
    · simp [gatherInternalStep, htp, hsp]
    · rw [htp, hsp] at h
      simp only [portPresent, Bool.and_eq_false_iff, bne_eq_false_iff_eq] at h
      simp only [gatherInternalStep, htp, hsp]
      rw [if_neg]
      rintro ⟨h1, h2, h3⟩
      rcases h with h' | h'
      · exact h3 h'
      · exact h2 h'

/-- Counterexample to C1: a connection whose `source_port` and
`target_port` are both absent still contributes an edge, and an in-degree
increment, to the graph that `_get_execution_order` builds — the scheduler
consults only the endpoints. -/
theorem portless_connection_contributes_edge :
    portPresent (none : Option String) = false ∧
    (1, 2) ∈ (buildGraph (dedupFirst (([⟨1, "A", "Heater", none⟩,
        ⟨2, "B", "Valve", none⟩] : List ComponentInfo).map (fun c => c.id)))
      [⟨1, 1, 1, 2, none, none⟩]).1 ∧
    degLookup (buildGraph (dedupFirst (([⟨1, "A", "Heater", none⟩,
        ⟨2, "B", "Valve", none⟩] : List ComponentInfo).map (fun c => c.id)))
      [⟨1, 1, 1, 2, none, none⟩]).2 2 = 1 ∧
    degLookup (buildGraph (dedupFirst (([⟨1, "A", "Heater", none⟩,
        ⟨2, "B", "Valve", none⟩] : List ComponentInfo).map (fun c => c.id)))
      ([] : List Connection)).2 2 = 0 := by
  refine ⟨rfl, ?_, ?_, ?_⟩ <;> decide

/-- C1 amended: a connection with a missing (or empty) `source_port` or
`target_port` supplies no input value during input gathering — dropping
all such connections leaves `gatherInputs` unchanged — but the scheduler
does not consult ports: every connection whose endpoints are both known
component ids contributes its edge to the scheduler's graph. -/
theorem portless_connection_skipped_for_inputs_only
    (connections : List Connection) (bindings : List CommunicationBinding)
    (prevStates : List (Nat × List (String × Value)))
    (externalInputs : List (Nat × Value)) (hil : Bool) (compId : Nat) :
    gatherInputs connections bindings prevStates externalInputs hil compId =
      gatherInputs (connections.filter (fun c =>
          portPresent c.source_port && portPresent c.target_port))
        bindings prevStates externalInputs hil compId ∧
    (∀ (V : List Nat) (conn : Connection), conn ∈ connections →
      conn.source_component_id ∈ V → conn.target_component_id ∈ V →
      (conn.source_component_id, conn.target_component_id) ∈
        (buildGraph V connections).1) := by
  constructor
  · have hfold := foldl_filter_skip (gatherInternalStep prevStates compId)
      (fun c => portPresent c.source_port && portPresent c.target_port)
      (fun b a ha => gatherInternalStep_skip prevStates compId b a ha)
      connections []
    simp only [gatherInputs, hfold]
  · intro V conn hmem hs ht
    exact mem_buildGraph_edges V connections conn hmem hs ht

/-- Witness for the amended C1 at a concrete port-less connection. -/
theorem portless_connection_skipped_for_inputs_only_witness :
    (gatherInputs [⟨1, 1, 1, 2, none, none⟩] [] [] [] false 2 =
      gatherInputs (([⟨1, 1, 1, 2, none, none⟩] : List Connection).filter
          (fun c => portPresent c.source_port && portPresent c.target_port))
        [] [] [] false 2) ∧
    (1, 2) ∈ (buildGraph [1, 2] [⟨1, 1, 1, 2, none, none⟩]).1 :=
  ⟨(portless_connection_skipped_for_inputs_only
      [⟨1, 1, 1, 2, none, none⟩] [] [] [] false 2).1,
    (portless_connection_skipped_for_inputs_only
      [⟨1, 1, 1, 2, none, none⟩] [] [] [] false 2).2
      [1, 2] ⟨1, 1, 1, 2, none, none⟩ (by decide) (by decide) (by decide)⟩

/-- Counterexample to C2: in HIL mode a failed communication-binding fetch
does not abort the start — the snapshot-loading phase of
`create_and_start_simulation` swallows the error and proceeds with an
empty binding list. -/
theorem bindings_fetch_error_not_aborted :
    loadSnapshot (Except.ok []) (Except.ok []) (Except.error "db failure")
      "hil" = Except.ok ([], [], []) := rfl

/-- C2 amended: simulation start is all-or-nothing for the component and
connection fetches — a failure of either aborts the start with that error
— but a communication-binding fetch failure in HIL mode is logged and
swallowed: the start proceeds with an empty binding list. -/
theorem load_snapshot_error_spec (e : String)
    (fetchConnections : Except String (List Connection))
    (fetchBindings : Except String (List CommunicationBinding))
    (comps : List ComponentInfo) (conns : List Connection) (mode : String) :
    loadSnapshot (Except.error e) fetchConnections fetchBindings mode =
      Except.error e ∧
    loadSnapshot (Except.ok comps) (Except.error e) fetchBindings mode =
      Except.error e ∧
    loadSnapshot (Except.ok comps) (Except.ok conns) (Except.error e) "hil" =
      Except.ok (comps, conns, []) :=
  ⟨rfl, rfl, rfl⟩

/-- C5: in HIL mode, for a component port `p` fed by an internal
connection and targeted by a `read` binding on the same `(component, p)`,
the effective gathered input at `p` on a tick equals the external cache
value whenever the cache holds one for the binding, and otherwise equals
the internal previous-step value carried by the connection. -/
theorem hil_read_binding_overrides_internal
    (conn : Connection) (b : CommunicationBinding)
    (prevStates : List (Nat × List (String × Value)))
    (externalInputs : List (Nat × Value)) (compId : Nat) (p sp : String)
    (hct : conn.target_component_id = compId)
    (hctp : conn.target_port = some p) (hcsp : conn.source_port = some sp)
    (hp : p ≠ "") (hsp : sp ≠ "")
    (hbd : b.direction = "read") (hbc : b.component_id = compId)
    (hbp : b.component_port = p) :
    alGet (gatherInputs [conn] [b] prevStates externalInputs true compId) p =
      match alGet externalInputs b.id with
      | some v => some v
      | none =>
        alGet ((alGet prevStates conn.source_component_id).getD []) sp := by
  have hinternal : [conn].foldl (gatherInternalStep prevStates compId) [] =
      match alGet ((alGet prevStates conn.source_component_id).getD []) sp with
      | some v => [(p, v)]
      | none => [] := by
    simp only [List.foldl_cons, List.foldl_nil, gatherInternalStep, hctp, hcsp]
    rw [if_pos ⟨hct, hp, hsp⟩]
    rcases hv : alGet ((alGet prevStates conn.source_component_id).getD []) sp
      with _ | v
    · rfl
    · simp [alSet]
  have houter : gatherInputs [conn] [b] prevStates externalInputs true compId =
      gatherOverlayStep externalInputs compId
        ([conn].foldl (gatherInternalStep prevStates compId) []) b := by
    simp [gatherInputs]
  rw [houter, hinternal]
  unfold gatherOverlayStep
  rw [if_pos ⟨hbd, hbc, by rw [hbp]; exact hp⟩, hbp]
  rcases he : alGet externalInputs b.id with _ | w
  · rcases hv : alGet ((alGet prevStates conn.source_component_id).getD []) sp
      with _ | v
    · rfl
    · simp [alGet]
  · rw [alGet_alSet_self]

/-- Witness for C5 at a concrete snapshot: a heater's `setpoint` port fed
both by an internal connection and by a `read` binding whose cache value
is present. -/
theorem hil_read_binding_overrides_internal_witness :
    (alGet (gatherInputs [⟨11, 1, 3, 9, some "out", some "setpoint"⟩]
        [⟨4, 1, 9, "setpoint", "read", "OPCUA", "ns=2;s=Sp", "opc.tcp://plc"⟩]
        [(3, [("out", Value.num 7)])] [(4, Value.num 42)] true 9) "setpoint" =
      match alGet [(4, Value.num 42)] (4 : Nat) with
      | some v => some v
      | none => alGet ((alGet [(3, [("out", Value.num 7)])] (3 : Nat)).getD [])
          "out") ∧
    alGet (gatherInputs [⟨11, 1, 3, 9, some "out", some "setpoint"⟩]
        [⟨4, 1, 9, "setpoint", "read", "OPCUA", "ns=2;s=Sp", "opc.tcp://plc"⟩]
        [(3, [("out", Value.num 7)])] [(4, Value.num 42)] true 9) "setpoint" =
      some (Value.num 42) :=
  ⟨hil_read_binding_overrides_internal _ _ _ _ _ _ _ rfl rfl rfl (by decide)
      (by decide) rfl rfl rfl,
    by decide⟩

/-- C6: one Heater tick: the effective setpoint `sp` is the numeric
`setpoint` input when present, else the config `setpoint` (default 50);
with the previous temperature `T` (on the first tick `initial_temp`,
defaulting to `ambient_temp`), the new `temperature` output is
`min (T + heating_rate·1) sp` when `T < sp`, is
`max (T − cooling_rate·1) (max ambient_temp sp)` when `T > sp`, and is
exactly `T` when `T = sp`. -/
theorem heater_kernel_spec (config : Option (List (String × ℚ)))
    (prevState inputs : List (String × Value)) (sp T : ℚ)
    (hsp : sp = (match numericValue (alGet inputs "setpoint") with
      | some q => q
      | none => cfgNum config "setpoint" 50))
    (hT : T = (match alGet prevState "temperature" with
      | some (Value.num q) => q
      | _ => cfgNum config "initial_temp" (cfgNum config "ambient_temp" 20))) :
    (T < sp → alGet (heaterStep config prevState inputs) "temperature" =
      some (Value.num (min (T + cfgNum config "heating_rate" 5 * 1) sp))) ∧
    (T > sp → alGet (heaterStep config prevState inputs) "temperature" =
      some (Value.num (max (T - cfgNum config "cooling_rate" 1 * 1)
        (max (cfgNum config "ambient_temp" 20) sp)))) ∧
    (T = sp → alGet (heaterStep config prevState inputs) "temperature" =
      some (Value.num T)) := by
  have hstep : heaterStep config prevState inputs =
      [("temperature", Value.num (
        if T < sp then min (T + cfgNum config "heating_rate" 5 * 1) sp
        else if T > sp then
          max (T - cfgNum config "cooling_rate" 1 * 1)
            (max (cfgNum config "ambient_temp" 20)
              (if sp > cfgNum config "ambient_temp" 20 then sp
               else cfgNum config "ambient_temp" 20))
        else T))] := by
    simp only [heaterStep]
    rw [← hsp, ← hT]
  refine ⟨?_, ?_, ?_⟩
  · intro h
    rw [hstep]
    simp only [alGet, if_pos]
    rw [if_pos h]
  · intro h
    rw [hstep]
    simp only [alGet, if_pos]
    rw [if_neg (not_lt.2 (le_of_lt h)), if_pos h]
    rcases le_or_lt sp (cfgNum config "ambient_temp" 20) with hc | hc
    · rw [if_neg (not_lt.2 hc), max_self, max_eq_left hc]
    · rw [if_pos hc]
  · intro h
    rw [hstep]
    simp only [alGet, if_pos]
    rw [if_neg (by rw [h]; exact lt_irrefl sp),
      if_neg (by rw [h]; exact lt_irrefl sp)]

/-- Witness for C6: default config, empty previous state and inputs, so
the heater heats from the ambient default 20 towards the default setpoint
50 by one heating step. -/
theorem heater_kernel_spec_witness :
    ((50 : ℚ) = (match numericValue (alGet ([] : List (String × Value))
        "setpoint") with
      | some q => q
      | none => cfgNum none "setpoint" 50)) ∧
    ((20 : ℚ) = (match alGet ([] : List (String × Value)) "temperature" with
      | some (Value.num q) => q
      | _ => cfgNum none "initial_temp" (cfgNum none "ambient_temp" 20))) ∧
    (20 : ℚ) < 50 ∧
    alGet (heaterStep none [] []) "temperature" =
      some (Value.num (min ((20 : ℚ) + cfgNum none "heating_rate" 5 * 1) 50)) :=
  ⟨rfl, rfl, by norm_num,
    (heater_kernel_spec none [] [] 50 20 rfl rfl).1 (by norm_num)⟩

theorem alSet_keys_mem {α β : Type} [DecidableEq α] (l : List (α × β))
    (k : α) (v : β) (a : α) :
    a ∈ (alSet l k v).map (fun p => p.1) ↔
      a = k ∨ a ∈ l.map (fun p => p.1) := by
  induction l with
  | nil => simp [alSet]
  | cons p rest ih =>
    by_cases hpk : p.1 = k
    · subst hpk
      rw [show alSet (p :: rest) p.1 v = (p.1, v) :: rest from by
        simp [alSet]]
      simp only [List.map_cons, List.mem_cons]
      tauto
    · simp only [alSet, hpk, if_neg, not_false_iff, List.map_cons,
        List.mem_cons, ih]
      tauto

theorem alSet_keys_nodup {α β : Type} [DecidableEq α] (l : List (α × β))
    (k : α) (v : β) (h : (l.map (fun p => p.1)).Nodup) :
    ((alSet l k v).map (fun p => p.1)).Nodup := by
  induction l with
  | nil => simp [alSet]
  | cons p rest ih =>
    by_cases hpk : p.1 = k
    · subst hpk
      simpa [alSet] using h
    · simp only [alSet, hpk, if_neg, not_false_iff, List.map_cons] at h ⊢
      obtain ⟨h1, h2⟩ := List.nodup_cons.1 h
      refine List.nodup_cons.2 ⟨?_, ih h2⟩
      rw [alSet_keys_mem]
      rintro (h' | h')
      · exact hpk h'
      · exact h1 h'

theorem alGet_foldl_alSet_not_mem {α β : Type} [DecidableEq α]
    (l : List (α × β)) (k : α) (h : k ∉ l.map (fun p => p.1)) :
    ∀ acc : List (α × β),
      alGet (l.foldl (fun st p => alSet st p.1 p.2) acc) k = alGet acc k := by
  induction l with
  | nil => intro acc; rfl
  | cons p rest ih =>
    intro acc
    have hk : ¬ p.1 = k := fun hh => h (by simp [hh])
    have hrest : k ∉ rest.map (fun q => q.1) := fun hh => h (by simp [hh])
    rw [List.foldl_cons, ih hrest, alGet_alSet_ne _ _ _ _ hk]

theorem alGet_merge {α β : Type} [DecidableEq α]
    (next : List (α × β)) (k : α)
    (hnd : (next.map (fun p => p.1)).Nodup) :
    ∀ old : List (α × β),
      alGet (next.foldl (fun st p => alSet st p.1 p.2) old) k =
        match alGet next k with
        | some v => some v
        | none => alGet old k := by
  induction next with
  | nil => intro old; rfl
  | cons p rest ih =>
    intro old
    rw [List.map_cons] at hnd
    obtain ⟨h1, h2⟩ := List.nodup_cons.1 hnd
    rw [List.foldl_cons]
    by_cases hpk : p.1 = k
    · subst hpk
      rw [alGet_foldl_alSet_not_mem rest p.1 h1, alGet_alSet_self]
      simp [alGet]
    · rw [ih h2 (alSet old p.1 p.2)]
      have hhead : alGet (p :: rest) k = alGet rest k := by
        simp [alGet, hpk]
      rw [hhead]
      rcases hr : alGet rest k with _ | v
      · simp [alGet_alSet_ne _ _ _ _ hpk]
      · rfl

theorem run_fold_lookup (comps : List ComponentInfo)
    (w : Nat → ComponentInfo → List (String × Value))
    (k : Nat) (comp : ComponentInfo)
    (hfind : componentMap comps k = some comp) :
    ∀ (order : List Nat) (acc : List (Nat × List (String × Value))),
      alGet (order.foldl (fun acc compId =>
          match componentMap comps compId with
          | none => acc
          | some c => alSet acc compId (w compId c)) acc) k =
        if k ∈ order then some (w k comp) else alGet acc k := by
  intro order
  induction order with
  | nil => intro acc; simp
  | cons i rest ih =>
    intro acc
    rw [List.foldl_cons]
    by_cases hik : i = k
    · subst hik
      simp only [hfind]
      rw [ih]
      by_cases hk : i ∈ rest
      · simp [hk]
      · simp [hk, alGet_alSet_self]
    · have hki : ¬ k = i := fun hh => hik hh.symm
      rcases hm : componentMap comps i with _ | c
      · simp only [hm]
        rw [ih]
        by_cases hk : k ∈ rest
        · simp [hk, List.mem_cons]
        · simp [hk, List.mem_cons, hki]
      · simp only [hm]
        rw [ih]
        by_cases hk : k ∈ rest
        · simp [hk, List.mem_cons]
        · simp [hk, List.mem_cons, hki, alGet_alSet_ne _ _ _ _ hik]

theorem run_fold_keys_nodup (comps : List ComponentInfo)
    (w : Nat → ComponentInfo → List (String × Value)) :
    ∀ (order : List Nat) (acc : List (Nat × List (String × Value))),
      (acc.map (fun p => p.1)).Nodup →
      ((order.foldl (fun acc compId =>
          match componentMap comps compId with
          | none => acc
          | some c => alSet acc compId (w compId c)) acc).map
        (fun p => p.1)).Nodup := by
  intro order
  induction order with
  | nil => intro acc h; exact h
  | cons i rest ih =>
    intro acc h
    rw [List.foldl_cons]
    rcases hm : componentMap comps i with _ | c
    · simp only [hm]
      exact ih _ h
    · simp only [hm]
      exact ih _ (alSet_keys_nodup _ _ _ h)

/-- C7: when an FMU component's `doStep` returns a non-OK status on a tick,
that component's state for the tick is the single diagnostic entry
`status = error_doStep_<code>`, the tick function is total (no exception
escapes the loop body), and the simulation status is still `running`
afterwards, so subsequent ticks execute. -/
theorem fmu_doStep_error_keeps_running
    (sinTwoPi : ℚ → ℚ) (fmuOracle : Nat → Option FmuTick) (hil : Bool)
    (externalInputs : List (Nat × Value)) (currentTime : ℚ) (sim : SimState)
    (comp : ComponentInfo) (code : Int) (outs : List (String × Value))
    (htype : comp.type = "FMU")
    (hfind : componentMap sim.components comp.id = some comp)
    (horder : comp.id ∈ sim.execution_order)
    (horacle : fmuOracle comp.id = some ⟨code, outs⟩)
    (hcode : code ≠ 0)
    (hrun : sim.status = "running") :
    alGet (runTick sinTwoPi fmuOracle hil externalInputs currentTime
        sim).component_states comp.id =
      some [("status", Value.str ("error_doStep_" ++ toString code))] ∧
    (runTick sinTwoPi fmuOracle hil externalInputs currentTime sim).status =
      "running" := by
  have hval : tickOutput sinTwoPi fmuOracle hil externalInputs currentTime sim
      comp.id comp =
      [("status", Value.str ("error_doStep_" ++ toString code))] := by
    simp [tickOutput, componentStep, htype, fmuStep, horacle, fmi2OK, hcode]
  constructor
  · simp only [runTick]
    rw [alGet_merge _ _ (run_fold_keys_nodup sim.components _ _ _ (by simp)),
      run_fold_lookup sim.components _ comp.id comp hfind, if_pos horder,
      hval]
  · simp only [runTick]
    exact hrun

/-- Witness for C7: a one-component simulation whose FMU oracle reports
`doStep` status 3 on this tick. -/
theorem fmu_doStep_error_keeps_running_witness :
    alGet (runTick (fun _ => 0)
        (fun i => if i = 7 then some ⟨3, []⟩ else none) false [] 0
        ⟨1, 1, "running", [⟨7, "F", "FMU", none⟩], [], [], [], [7]⟩
        ).component_states 7 =
      some [("status", Value.str ("error_doStep_" ++ toString (3 : Int)))] ∧
    (runTick (fun _ => 0) (fun i => if i = 7 then some ⟨3, []⟩ else none)
      false [] 0
      ⟨1, 1, "running", [⟨7, "F", "FMU", none⟩], [], [], [], [7]⟩).status =
      "running" :=
  fmu_doStep_error_keeps_running (fun _ => 0)
    (fun i => if i = 7 then some ⟨3, []⟩ else none) false [] 0
    ⟨1, 1, "running", [⟨7, "F", "FMU", none⟩], [], [], [], [7]⟩
    ⟨7, "F", "FMU", none⟩ 3 [] rfl (by decide) (by decide) rfl (by decide) rfl

/-- C8: a Valve tick outputs `Flow = 1.0` exactly when the `ControlSignal`
input is numeric and strictly greater than the threshold (default 0.5); an
input equal to or below the threshold, a missing input, and a non-numeric
input all yield `Flow = 0.0`. -/
theorem valve_flow_iff (config : Option (List (String × ℚ)))
    (inputs : List (String × Value)) :
    (alGet (valveStep config inputs) "Flow" = some (Value.num 1) ↔
      (∃ q, numericValue (alGet inputs "ControlSignal") = some q ∧
        q > cfgNum config "threshold" (1 / 2))) ∧
    (∀ q, numericValue (alGet inputs "ControlSignal") = some q →
      q ≤ cfgNum config "threshold" (1 / 2) →
      alGet (valveStep config inputs) "Flow" = some (Value.num 0)) ∧
    (numericValue (alGet inputs "ControlSignal") = none →
      alGet (valveStep config inputs) "Flow" = some (Value.num 0)) := by
  rcases hv : numericValue (alGet inputs "ControlSignal") with _ | q
  · refine ⟨?_, ?_, ?_⟩
    · simp [valveStep, hv, alGet]
    · intro q hq hle
      simp at hq
    · intro _
      simp [valveStep, hv, alGet]
  · by_cases hgt : q > cfgNum config "threshold" (1 / 2)
    · refine ⟨?_, ?_, ?_⟩
      · constructor
        · intro _
          exact ⟨q, rfl, hgt⟩
        · intro _
          simp only [valveStep, hv]
          rw [if_pos hgt]
          simp [alGet]
      · intro q' hq' hle
        injection hq' with h'
        subst h'
        exact absurd hgt (not_lt.2 hle)
      · intro hnone
        simp at hnone
    · refine ⟨?_, ?_, ?_⟩
      · constructor
        · intro hflow
          simp only [valveStep, hv] at hflow
          rw [if_neg hgt] at hflow
          simp [alGet] at hflow
        · rintro ⟨q', hq', hgt'⟩
          injection hq' with h'
          subst h'
          exact absurd hgt' hgt
      · intro q' hq' hle
        injection hq' with h'
        subst h'
        simp only [valveStep, hv]
        rw [if_neg hgt]
        simp [alGet]
      · intro hnone
        simp at hnone

/-- Witness for C8: a signal of 1.0 against the default threshold 0.5
opens the valve. -/
theorem valve_flow_iff_witness :
    (alGet (valveStep none [("ControlSignal", Value.num 1)]) "Flow" =
        some (Value.num 1) ↔
      (∃ q, numericValue (alGet [("ControlSignal", Value.num 1)]
          "ControlSignal") = some q ∧
        q > cfgNum none "threshold" (1 / 2))) ∧
    alGet (valveStep none [("ControlSignal", Value.num 1)]) "Flow" =
      some (Value.num 1) ∧
    alGet (valveStep none [("ControlSignal", Value.num (1 / 2))]) "Flow" =
      some (Value.num 0) :=
  ⟨(valve_flow_iff none [("ControlSignal", Value.num 1)]).1,
    ((valve_flow_iff none [("ControlSignal", Value.num 1)]).1).2
      ⟨1, rfl, by norm_num [cfgNum, alGet]⟩,
    (valve_flow_iff none [("ControlSignal", Value.num (1 / 2))]).2.1 (1 / 2)
      rfl (by norm_num [cfgNum, alGet])⟩

/-- C9: with the registry holding only statuses the service assigns,
`stop_simulation` returns `True` exactly for registered ids — `running`
and `starting` are moved to `stopping`, while the other statuses are
accepted as no-ops leaving the registry unchanged — so the HTTP stop
endpoint's 400 `could not be stopped` branch is unreachable for registered
simulations. -/
theorem stop_simulation_registered_accepts (registry : List (Nat × String))
    (simId : Nat)
    (hvalid : ∀ p ∈ registry,
      p.2 ∈ (["pending", "starting", "running", "stopping", "stopped",
        "error"] : List String)) :
    ((stop_simulation registry simId).1 = true ↔
      (alGet registry simId).isSome = true) ∧
    (∀ st, alGet registry simId = some st →
      ((st = "running" ∨ st = "starting") →
        alGet (stop_simulation registry simId).2 simId = some "stopping") ∧
      (st ∈ (["stopped", "error", "pending", "stopping"] : List String) →
        (stop_simulation registry simId).2 = registry)) ∧
    ((alGet registry simId).isSome = true →
      (stopEndpoint registry simId).1 ≠ StopResponse.badRequest) := by
  rcases hget : alGet registry simId with _ | st
  · refine ⟨?_, ?_, ?_⟩
    · simp [stop_simulation, hget]
    · intro st hst
      simp at hst
    · intro hsome
      simp at hsome
  · have hmem := alGet_mem registry simId st hget
    have hstat := hvalid (simId, st) hmem
    simp only [List.mem_cons, List.not_mem_nil, or_false] at hstat
    have hres : (stop_simulation registry simId).1 = true ∧
        ((st = "running" ∨ st = "starting") →
          (stop_simulation registry simId).2 =
            alSet registry simId "stopping") ∧
        (st ∈ (["stopped", "error", "pending", "stopping"] : List String) →
          (stop_simulation registry simId).2 = registry) := by
      rcases hstat with rfl | rfl | rfl | rfl | rfl | rfl <;>
        refine ⟨?_, ?_, ?_⟩ <;>
        simp [stop_simulation, hget]
    refine ⟨?_, ?_, ?_⟩
    · simp [hres.1]
    · intro st' hst'
      injection hst' with h'
      subst h'
      refine ⟨fun hrs => ?_, hres.2.2⟩
      rw [hres.2.1 hrs]
      exact alGet_alSet_self _ _ _
    · intro _
      simp [stopEndpoint, hres.1]

/-- Witness for C9: a registry holding one running simulation. -/
theorem stop_simulation_registered_accepts_witness :
    (∀ p ∈ ([(5, "running")] : List (Nat × String)),
      p.2 ∈ (["pending", "starting", "running", "stopping", "stopped",
        "error"] : List String)) ∧
    (((stop_simulation [(5, "running")] 5).1 = true ↔
      (alGet [(5, "running")] (5 : Nat)).isSome = true) ∧
    (∀ st, alGet [(5, "running")] (5 : Nat) = some st →
      ((st = "running" ∨ st = "starting") →
        alGet (stop_simulation [(5, "running")] 5).2 5 = some "stopping") ∧
      (st ∈ (["stopped", "error", "pending", "stopping"] : List String) →
        (stop_simulation [(5, "running")] 5).2 = [(5, "running")])) ∧
    ((alGet [(5, "running")] (5 : Nat)).isSome = true →
      (stopEndpoint [(5, "running")] 5).1 ≠ StopResponse.badRequest)) :=
  ⟨by decide, stop_simulation_registered_accepts [(5, "running")] 5 (by decide)⟩

theorem initEndpoint_range (net : OpcUaNet)
    (readBindings : List CommunicationBinding) (url : String)
    (nodeMap : List (String × Nat))
    (h : ∀ q ∈ nodeMap, q.2 ∈ readBindings.map (fun b => b.id)) :
    ∀ q ∈ initEndpoint net readBindings nodeMap url,
      q.2 ∈ readBindings.map (fun b => b.id) := by
  have hfold : ∀ (l : List CommunicationBinding) (m : List (String × Nat)),
      (∀ q ∈ m, q.2 ∈ readBindings.map (fun b => b.id)) →
      (∀ b ∈ l, b ∈ readBindings) →
      ∀ q ∈ l.foldl (fun m b =>
          if net.nodeOk b then alSet m (net.nodeIdOf b.address) b.id else m) m,
        q.2 ∈ readBindings.map (fun b => b.id) := by
    intro l
    induction l with
    | nil => intro m hm _ q hq; exact hm q hq
    | cons b rest ih =>
      intro m hm hsub q hq
      rw [List.foldl_cons] at hq
      refine ih _ ?_ (fun b' hb' => hsub b' (List.mem_cons_of_mem _ hb')) q hq
      intro q' hq'
      rcases hbOk : net.nodeOk b with _ | _
      · simp only [hbOk, Bool.false_eq_true, if_false] at hq'
        exact hm q' hq'
      · simp only [hbOk, if_true] at hq'
        rcases mem_alSet _ _ _ q' hq' with h' | h'
        · rw [h']
          exact List.mem_map.2 ⟨b, hsub b (List.mem_cons_self _ _), rfl⟩
        · exact hm q' h'
  unfold initEndpoint
  split_ifs with h1 h2 h3 h4
  · exact h
  · exact hfold _ nodeMap h (fun b hb => (List.mem_filter.1 hb).1)
  · exact h
  · exact h
  · intro q hq
    exact h q (List.mem_filter.1 hq).1

theorem foldl_initEndpoint_range (net : OpcUaNet)
    (readBindings : List CommunicationBinding) (urls : List String) :
    ∀ m, (∀ q ∈ m, q.2 ∈ readBindings.map (fun b => b.id)) →
      ∀ q ∈ urls.foldl (initEndpoint net readBindings) m,
        q.2 ∈ readBindings.map (fun b => b.id) := by
  induction urls with
  | nil => intro m hm q hq; exact hm q hq
  | cons url rest ih =>
    intro m hm q hq
    rw [List.foldl_cons] at hq
    exact ih _ (initEndpoint_range net readBindings url m hm) q hq

theorem applyCallbacks_values_range (ids : List Nat)
    (events : List (String × Value)) :
    ∀ st : CommState,
      (∀ p ∈ st.binding_values, p.1 ∈ ids) →
      (∀ q ∈ st.node_id_to_binding_id_map, q.2 ∈ ids) →
      ∀ p ∈ (applyCallbacks st events).binding_values, p.1 ∈ ids := by
  induction events with
  | nil => intro st h1 _ p hp; exact h1 p hp
  | cons e rest ih =>
    intro st h1 h2 p hp
    have hstep : applyCallbacks st (e :: rest) =
        applyCallbacks (datachange_notification st e.1 e.2) rest := rfl
    rw [hstep] at hp
    refine ih (datachange_notification st e.1 e.2) ?_ ?_ p hp
    · intro p' hp'
      unfold datachange_notification at hp'
      rcases hmap : alGet st.node_id_to_binding_id_map e.1 with _ | bid
      · rw [hmap] at hp'
        exact h1 p' hp'
      · rw [hmap] at hp'
        rcases mem_alSet _ _ _ p' hp' with h' | h'
        · rw [h']
          exact h2 (e.1, bid) (alGet_mem _ _ _ hmap)
        · exact h1 p' h'
    · intro q hq
      unfold datachange_notification at hq
      rcases hmap : alGet st.node_id_to_binding_id_map e.1 with _ | bid
      · rw [hmap] at hq
        exact h2 q hq
      · rw [hmap] at hq
        exact h2 q hq

/-- C10: `initialize_connections` rebuilds the communication state from the
given bindings alone: the latest-value cache is cleared (so
`read_values_from_external` returns the empty map immediately after
initialization), the stored read/write lists are exactly the given
bindings partitioned by direction, every node-map entry points at one of
the new `read` bindings, and consequently every value the cache ever
returns after initialization belongs to one of the new read bindings —
never to a previous run's. -/
theorem initialize_connections_fresh (prev : CommState) (net : OpcUaNet)
    (bindings : List CommunicationBinding) :
    read_values_from_external (initialize_connections prev net bindings) =
      [] ∧
    (initialize_connections prev net bindings).read_bindings =
      bindings.filter (fun b => b.direction == "read") ∧
    (initialize_connections prev net bindings).write_bindings =
      bindings.filter (fun b => b.direction == "write") ∧
    (∀ q ∈ (initialize_connections prev net
        bindings).node_id_to_binding_id_map,
      q.2 ∈ (bindings.filter (fun b => b.direction == "read")).map
        (fun b => b.id)) ∧
    (∀ (events : List (String × Value)) (p : Nat × Value),
      p ∈ read_values_from_external
        (applyCallbacks (initialize_connections prev net bindings) events) →
      p.1 ∈ (bindings.filter (fun b => b.direction == "read")).map
        (fun b => b.id)) := by
  refine ⟨rfl, rfl, rfl, ?_, ?_⟩
  · intro q hq
    exact foldl_initEndpoint_range net _ (endpointUrls bindings) []
      (fun q' hq' => absurd hq' (List.not_mem_nil q')) q hq
  · intro events p hp
    refine applyCallbacks_values_range _ events
      (initialize_connections prev net bindings) ?_ ?_ p hp
    · intro p' hp'
      exact absurd hp' (List.not_mem_nil p')
    · intro q hq
      exact foldl_initEndpoint_range net _ (endpointUrls bindings) []
        (fun q' hq' => absurd hq' (List.not_mem_nil q')) q hq

/-- Witness for C10: a stale previous state is fully discarded, and a
callback delivering a value for the new binding yields only that binding's
id in the cache. -/
theorem initialize_connections_fresh_witness :
    read_values_from_external (initialize_connections
      ⟨[(99, Value.num 1)], [("old", 99)], [], []⟩
      ⟨fun _ => false, fun _ => true, fun _ => true, fun _ => true,
        fun a => a⟩
      [⟨4, 1, 9, "setpoint", "read", "OPCUA", "ns=2;s=Sp",
        "opc.tcp://plc"⟩]) = [] ∧
    (4 : Nat) ∈ (([⟨4, 1, 9, "setpoint", "read", "OPCUA", "ns=2;s=Sp",
        "opc.tcp://plc"⟩] : List CommunicationBinding).filter
      (fun b => b.direction == "read")).map (fun b => b.id) :=
  ⟨(initialize_connections_fresh
      ⟨[(99, Value.num 1)], [("old", 99)], [], []⟩
      ⟨fun _ => false, fun _ => true, fun _ => true, fun _ => true,
        fun a => a⟩
      [⟨4, 1, 9, "setpoint", "read", "OPCUA", "ns=2;s=Sp",
        "opc.tcp://plc"⟩]).1,
    (initialize_connections_fresh
      ⟨[(99, Value.num 1)], [("old", 99)], [], []⟩
      ⟨fun _ => false, fun _ => true, fun _ => true, fun _ => true,
        fun a => a⟩
      [⟨4, 1, 9, "setpoint", "read", "OPCUA", "ns=2;s=Sp",
        "opc.tcp://plc"⟩]).2.2.2.2
      [("ns=2;s=Sp", Value.num 42)] (4, Value.num 42) (by decide)⟩

end DT
